import Mathlib

/-!
Verification of the VinhTuyRouting engine against its specification.

The development shallowly embeds the Python sources:
  * `src/services/graph_builder.py`   — weight tables, graph data model,
    raw-graph construction, LSCC filtering, degree-2 compression;
  * `src/services/fast_pathfinding_service.py` — the heuristic, A* search,
    the deprecated bidirectional entry point, and the obstruction resolver
    `find_affected_edges_fast`;
  * `src/services/lite_geocoding_service.py` — house-number interpolation.

Numeric values (floats in Python) are modelled as real numbers.  Python
dicts are modelled as insertion-ordered association lists (`dget?`, `dset`,
…), Python sets as insertion-ordered duplicate-free lists (`sinsert`), and
unbounded `while` loops as fuel-indexed recursion with fuel large enough to
cover every terminating run of the source.
-/

namespace VTR

/-! ## Association-list model of Python dicts -/

/-- Lookup in an insertion-ordered association list (`d.get(k)` / `d[k]`). -/
def dget? {K V : Type} [DecidableEq K] : List (K × V) → K → Option V
  | [], _ => none
  | (k2, v) :: rest, k => if k2 = k then some v else dget? rest k

/-- Lookup with default (`d.get(k, default)`). -/
def dgetD {K V : Type} [DecidableEq K] (l : List (K × V)) (k : K) (d : V) : V :=
  (dget? l k).getD d

/-- Key-membership test (`k in d`). -/
def dcontains {K V : Type} [DecidableEq K] (l : List (K × V)) (k : K) : Bool :=
  (dget? l k).isSome

/-- Assignment `d[k] = v`: overwrite in place if the key exists, otherwise
append, mirroring CPython's insertion-order semantics. -/
def dset {K V : Type} [DecidableEq K] : List (K × V) → K → V → List (K × V)
  | [], k, v => [(k, v)]
  | (k2, v2) :: rest, k, v =>
      if k2 = k then (k2, v) :: rest else (k2, v2) :: dset rest k v

/-- Apply `f` to the value stored at key `k` (used for `d[k].append(x)`). -/
def dmodify {K V : Type} [DecidableEq K] (l : List (K × V)) (k : K) (f : V → V) :
    List (K × V) :=
  l.map fun p => if p.1 = k then (p.1, f p.2) else p

/-- Removal `d.pop(k, None)`: drop the binding of `k` if present. -/
def derase {K V : Type} [DecidableEq K] (l : List (K × V)) (k : K) : List (K × V) :=
  l.filter fun p => decide (p.1 ≠ k)

/-- Python-set insertion (`s.add(k)`), modelled on insertion-ordered
duplicate-free lists. -/
def sinsert {K : Type} [DecidableEq K] (l : List K) (k : K) : List K :=
  if k ∈ l then l else l ++ [k]

/-- Python-set removal (`s.discard(k)`). -/
def serase {K : Type} [DecidableEq K] (l : List K) (k : K) : List K :=
  l.filter fun x => decide (x ≠ k)

theorem dget?_eq_none_of_not_mem_keys {K V : Type} [DecidableEq K]
    (l : List (K × V)) (k : K) (h : k ∉ l.map Prod.fst) : dget? l k = none := by
  induction l with
  | nil => rfl
  | cons p rest ih =>
      simp only [List.map_cons, List.mem_cons, not_or] at h
      cases p with
      | mk k2 v =>
          simp only [dget?]
          rw [if_neg (fun hk => h.1 hk.symm)]
          exact ih h.2

/-! ## Weight tables (`graph_builder.py`, lines 19–72) -/

/-- Highway classes retained by the way filter (`ALLOWED_HIGHWAYS`). -/
def ALLOWED_HIGHWAYS : List String :=
  ["motorway", "motorway_link", "trunk", "trunk_link",
   "primary", "primary_link", "secondary", "secondary_link",
   "tertiary", "tertiary_link", "residential", "living_street",
   "unclassified", "service"]

/-- Highway classes explicitly excluded (`EXCLUDED_HIGHWAYS`). -/
def EXCLUDED_HIGHWAYS : List String :=
  ["abandoned", "construction", "proposed", "planned",
   "footway", "pedestrian", "path", "cycleway", "steps",
   "corridor", "elevator", "escalator", "bridleway", "track"]

/-- Per-class base coefficients (`C_HIGHWAY`). -/
noncomputable def C_HIGHWAY : List (String × ℝ) :=
  [("motorway", 0.7), ("motorway_link", 0.75),
   ("trunk", 0.75), ("trunk_link", 0.8),
   ("primary", 0.8), ("primary_link", 0.85),
   ("secondary", 1.0), ("secondary_link", 1.05),
   ("tertiary", 1.1), ("tertiary_link", 1.15),
   ("residential", 1.2), ("living_street", 1.3),
   ("unclassified", 1.2), ("service", 1.5)]

/-- Normal-weather context table: `{k: 1.0 for k in C_HIGHWAY}`. -/
noncomputable def C_CONTEXT_normal : List (String × ℝ) :=
  C_HIGHWAY.map fun p => (p.1, 1.0)

/-- Rain context table (`C_CONTEXT["rain"]`). -/
noncomputable def C_CONTEXT_rain : List (String × ℝ) :=
  [("motorway", 1.05), ("motorway_link", 1.1),
   ("trunk", 1.1), ("trunk_link", 1.15),
   ("primary", 1.1), ("primary_link", 1.15),
   ("secondary", 1.2), ("secondary_link", 1.25),
   ("tertiary", 1.3), ("tertiary_link", 1.35),
   ("residential", 1.8), ("living_street", 2.0),
   ("unclassified", 1.5), ("service", 2.5)]

/-- Flood context table (`C_CONTEXT["flood"]`). -/
noncomputable def C_CONTEXT_flood : List (String × ℝ) :=
  [("motorway", 1.1), ("motorway_link", 1.2),
   ("trunk", 1.2), ("trunk_link", 1.3),
   ("primary", 1.2), ("primary_link", 1.3),
   ("secondary", 1.5), ("secondary_link", 1.6),
   ("tertiary", 2.0), ("tertiary_link", 2.2),
   ("residential", 3.0), ("living_street", 4.0),
   ("unclassified", 2.5), ("service", 5.0)]

/-- Weather-indexed coefficient tables (`C_CONTEXT`). -/
noncomputable def C_CONTEXT : List (String × List (String × ℝ)) :=
  [("normal", C_CONTEXT_normal), ("rain", C_CONTEXT_rain), ("flood", C_CONTEXT_flood)]

/-- Design speed per class (`SPEED_LIMITS`). -/
noncomputable def SPEED_LIMITS : List (String × ℝ) :=
  [("motorway", 100), ("motorway_link", 60),
   ("trunk", 80), ("trunk_link", 50),
   ("primary", 60), ("primary_link", 40),
   ("secondary", 50), ("secondary_link", 35),
   ("tertiary", 40), ("tertiary_link", 30),
   ("residential", 30), ("living_street", 20),
   ("unclassified", 30), ("service", 20)]

/-! ## Graph data model (`graph_builder.py`, lines 79–177) -/

/-- Graph node (`GraphNode`): stable integer id plus coordinates. -/
structure GraphNode where
  id : Int
  lat : ℝ
  lon : ℝ

/-- Directed edge (`GraphEdge`).  `geometry` is the polyline as a list of
`(lon, lat)` pairs. -/
structure GraphEdge where
  from_node : Int
  to_node : Int
  way_id : Int
  length : ℝ
  highway_type : String
  name : String
  speed : ℝ
  c_highway : ℝ
  geometry : List (ℝ × ℝ)

/-- Edge weight under a weather regime (`GraphEdge.get_weight`):
`length * c_highway * C_CONTEXT.get(weather, C_CONTEXT["normal"]).get(highway_type, 1.0)`. -/
noncomputable def GraphEdge.get_weight (e : GraphEdge) (weather : String) : ℝ :=
  let c_context := dgetD (dgetD C_CONTEXT weather C_CONTEXT_normal) e.highway_type 1.0
  e.length * e.c_highway * c_context

/-- Travel time in seconds (`GraphEdge.travel_time`). -/
noncomputable def GraphEdge.travel_time (e : GraphEdge) : ℝ :=
  e.length / 1000 / e.speed * 3600

/-- Lightweight adjacency-list graph (`LightGraph`).  The scipy KD-tree cache
fields (`_node_ids`, `_node_coords`, `_kdtree`) are external library state not
used by any verified operation and are omitted. -/
structure LightGraph where
  nodes : List (Int × GraphNode)
  adjacency : List (Int × List (Int × GraphEdge))
  reverse_adjacency : List (Int × List (Int × GraphEdge))

/-- Empty graph (`LightGraph()` with default factories). -/
def LightGraph.empty : LightGraph := ⟨[], [], []⟩

/-- Node insertion (`LightGraph.add_node`). -/
def LightGraph.add_node (g : LightGraph) (n : GraphNode) : LightGraph :=
  { nodes := dset g.nodes n.id n
    adjacency :=
      if dcontains g.adjacency n.id then g.adjacency else dset g.adjacency n.id []
    reverse_adjacency :=
      if dcontains g.reverse_adjacency n.id then g.reverse_adjacency
      else dset g.reverse_adjacency n.id [] }

/-- Edge insertion (`LightGraph.add_edge`). -/
def LightGraph.add_edge (g : LightGraph) (e : GraphEdge) : LightGraph :=
  let adj :=
    if dcontains g.adjacency e.from_node then g.adjacency
    else dset g.adjacency e.from_node []
  let radj :=
    if dcontains g.reverse_adjacency e.to_node then g.reverse_adjacency
    else dset g.reverse_adjacency e.to_node []
  { nodes := g.nodes
    adjacency := dmodify adj e.from_node fun lst => lst ++ [(e.to_node, e)]
    reverse_adjacency := dmodify radj e.to_node fun lst => lst ++ [(e.from_node, e)] }

/-- Outgoing neighbors (`LightGraph.get_neighbors`). -/
def LightGraph.get_neighbors (g : LightGraph) (node_id : Int) :
    List (Int × GraphEdge) :=
  dgetD g.adjacency node_id []

/-- Node lookup (`LightGraph.get_node`). -/
def LightGraph.get_node (g : LightGraph) (node_id : Int) : Option GraphNode :=
  dget? g.nodes node_id

/-- Node membership (`LightGraph.has_node`). -/
def LightGraph.has_node (g : LightGraph) (node_id : Int) : Bool :=
  dcontains g.nodes node_id

/-- Number of nodes (`LightGraph.node_count`). -/
def LightGraph.node_count (g : LightGraph) : Nat :=
  g.nodes.length

/-- Number of directed edges (`LightGraph.edge_count`). -/
def LightGraph.edge_count (g : LightGraph) : Nat :=
  (g.adjacency.map fun p => p.2.length).sum

/-- Directed edge keys `(from, to)` of the graph, read off the adjacency
lists (observer used by the theorems below). -/
def LightGraph.edgeKeys (g : LightGraph) : List (Int × Int) :=
  g.adjacency.flatMap fun p => p.2.map fun q => (p.1, q.1)

/-- Membership of a concrete edge record under key `(u, v)`. -/
def LightGraph.edgeIn (g : LightGraph) (u v : Int) (e : GraphEdge) : Prop :=
  ∃ lst, dget? g.adjacency u = some lst ∧ (v, e) ∈ lst

/-! ## Claims C7 and C10: properties of the weight model -/

theorem dgetD_cons {K V : Type} [DecidableEq K] (k : K) (v : V) (l : List (K × V))
    (c : K) (d : V) :
    dgetD ((k, v) :: l) c d = if k = c then v else dgetD l c d := by
  by_cases h : k = c <;> simp [dgetD, dget?, h]

theorem dgetD_le_dgetD_of_forall₂ {l1 l2 : List (String × ℝ)} (cls : String)
    {d1 d2 : ℝ} (hd : d1 ≤ d2)
    (h : List.Forall₂ (fun p q => p.1 = q.1 ∧ p.2 ≤ q.2) l1 l2) :
    dgetD l1 cls d1 ≤ dgetD l2 cls d2 := by
  induction l1 generalizing l2 with
  | nil =>
      cases h
      simpa [dgetD, dget?] using hd
  | cons p rest ih =>
      cases h
      rename_i b l2' hpq hrest
      obtain ⟨k, v⟩ := p
      obtain ⟨k2, v2⟩ := b
      obtain ⟨hk, hv⟩ := hpq
      simp only at hk hv
      subst hk
      rw [dgetD_cons, dgetD_cons]
      by_cases hc : k = cls
      · rw [if_pos hc, if_pos hc]; exact hv
      · rw [if_neg hc, if_neg hc]; exact ih hrest

theorem c_context_lookup_cases (w : String) :
    dgetD C_CONTEXT w C_CONTEXT_normal = C_CONTEXT_normal ∨
    dgetD C_CONTEXT w C_CONTEXT_normal = C_CONTEXT_rain ∨
    dgetD C_CONTEXT w C_CONTEXT_normal = C_CONTEXT_flood := by
  simp only [C_CONTEXT, dgetD, dget?]
  split_ifs <;> simp

theorem c_context_keys_normal :
    C_CONTEXT_normal.map Prod.fst = C_HIGHWAY.map Prod.fst := by
  simp [C_CONTEXT_normal]

theorem c_context_keys_rain :
    C_CONTEXT_rain.map Prod.fst = C_HIGHWAY.map Prod.fst := rfl

theorem c_context_keys_flood :
    C_CONTEXT_flood.map Prod.fst = C_HIGHWAY.map Prod.fst := rfl

/-- Claim C7: for every road class, the context coefficients are monotone
from normal through rain to flood weather, and consequently `get_weight` is
monotone in the same order for every edge with nonnegative length and base
coefficient. -/
theorem c7_weather_monotone :
    (∀ cls : String,
        dgetD C_CONTEXT_normal cls 1.0 ≤ dgetD C_CONTEXT_rain cls 1.0 ∧
        dgetD C_CONTEXT_rain cls 1.0 ≤ dgetD C_CONTEXT_flood cls 1.0) ∧
    (∀ e : GraphEdge, 0 ≤ e.length → 0 ≤ e.c_highway →
        e.get_weight "normal" ≤ e.get_weight "rain" ∧
        e.get_weight "rain" ≤ e.get_weight "flood") := by
  have tables : ∀ cls : String,
      dgetD C_CONTEXT_normal cls 1.0 ≤ dgetD C_CONTEXT_rain cls 1.0 ∧
      dgetD C_CONTEXT_rain cls 1.0 ≤ dgetD C_CONTEXT_flood cls 1.0 := by
    intro cls
    constructor
    · apply dgetD_le_dgetD_of_forall₂ cls le_rfl
      simp only [C_CONTEXT_normal, C_CONTEXT_rain, C_HIGHWAY, List.map_cons,
        List.map_nil, List.forall₂_cons, List.forall₂_nil_right_iff]
      norm_num
    · apply dgetD_le_dgetD_of_forall₂ cls le_rfl
      simp only [C_CONTEXT_rain, C_CONTEXT_flood, List.forall₂_cons,
        List.forall₂_nil_right_iff]
      norm_num
  refine ⟨tables, ?_⟩
  intro e hlen hchw
  have hbase : 0 ≤ e.length * e.c_highway := mul_nonneg hlen hchw
  have hw : ∀ w : String,
      e.get_weight w =
        e.length * e.c_highway * dgetD (dgetD C_CONTEXT w C_CONTEXT_normal) e.highway_type 1.0 :=
    fun w => rfl
  have hn : dgetD C_CONTEXT "normal" C_CONTEXT_normal = C_CONTEXT_normal := by
    simp [C_CONTEXT, dgetD, dget?]
  have hr : dgetD C_CONTEXT "rain" C_CONTEXT_normal = C_CONTEXT_rain := by
    simp [C_CONTEXT, dgetD, dget?]
  have hf : dgetD C_CONTEXT "flood" C_CONTEXT_normal = C_CONTEXT_flood := by
    simp [C_CONTEXT, dgetD, dget?]
  constructor
  · rw [hw "normal", hw "rain", hn, hr]
    exact mul_le_mul_of_nonneg_left (tables e.highway_type).1 hbase
  · rw [hw "rain", hw "flood", hr, hf]
    exact mul_le_mul_of_nonneg_left (tables e.highway_type).2 hbase

/-- Witness for C7 at a concrete `service`-class edge. -/
theorem c7_weather_monotone_witness :
    (0 : ℝ) ≤ 100 ∧ (0 : ℝ) ≤ 1.5 ∧
    ((⟨1, 2, 5, 100, "service", "", 20, 1.5, []⟩ : GraphEdge).get_weight "normal" ≤
      (⟨1, 2, 5, 100, "service", "", 20, 1.5, []⟩ : GraphEdge).get_weight "rain" ∧
     (⟨1, 2, 5, 100, "service", "", 20, 1.5, []⟩ : GraphEdge).get_weight "rain" ≤
      (⟨1, 2, 5, 100, "service", "", 20, 1.5, []⟩ : GraphEdge).get_weight "flood") :=
  ⟨by norm_num, by norm_num,
   c7_weather_monotone.2 ⟨1, 2, 5, 100, "service", "", 20, 1.5, []⟩
     (by norm_num) (by norm_num)⟩

/-- Claim C10: `get_weight` is total.  An unknown weather string falls back to
the normal table, so the weight equals the normal-weather weight; an unknown
highway class falls back to context coefficient `1.0` for every weather. -/
theorem c10_get_weight_total :
    (∀ (e : GraphEdge) (w : String), w ∉ ["normal", "rain", "flood"] →
        e.get_weight w = e.get_weight "normal") ∧
    (∀ (e : GraphEdge) (w : String), e.highway_type ∉ C_HIGHWAY.map Prod.fst →
        e.get_weight w = e.length * e.c_highway * 1.0) := by
  constructor
  · intro e w hw
    have houter : dgetD C_CONTEXT w C_CONTEXT_normal = C_CONTEXT_normal := by
      have hkeys : C_CONTEXT.map Prod.fst = ["normal", "rain", "flood"] := rfl
      have : dget? C_CONTEXT w = none := by
        apply dget?_eq_none_of_not_mem_keys
        rw [hkeys]; exact hw
      simp [dgetD, this]
    have hnormal : dgetD C_CONTEXT "normal" C_CONTEXT_normal = C_CONTEXT_normal := by
      simp [C_CONTEXT, dgetD, dget?]
    show e.length * e.c_highway * dgetD (dgetD C_CONTEXT w C_CONTEXT_normal) e.highway_type 1.0 =
      e.length * e.c_highway * dgetD (dgetD C_CONTEXT "normal" C_CONTEXT_normal) e.highway_type 1.0
    rw [houter, hnormal]
  · intro e w hty
    have hinner : ∀ tbl, tbl.map Prod.fst = C_HIGHWAY.map Prod.fst →
        dgetD tbl e.highway_type (1.0 : ℝ) = 1.0 := by
      intro tbl htbl
      have : dget? tbl e.highway_type = none := by
        apply dget?_eq_none_of_not_mem_keys
        rw [htbl]; exact hty
      simp [dgetD, this]
    show e.length * e.c_highway * dgetD (dgetD C_CONTEXT w C_CONTEXT_normal) e.highway_type 1.0 =
      e.length * e.c_highway * 1.0
    rcases c_context_lookup_cases w with h | h | h <;> rw [h]
    · rw [hinner _ c_context_keys_normal]
    · rw [hinner _ c_context_keys_rain]
    · rw [hinner _ c_context_keys_flood]

/-- Witness for C10 at weather `"snow"` and highway class `"footway"`. -/
theorem c10_get_weight_total_witness :
    ("snow" ∉ ["normal", "rain", "flood"] ∧
      (⟨1, 2, 5, 40, "secondary", "", 50, 1.0, []⟩ : GraphEdge).get_weight "snow" =
        (⟨1, 2, 5, 40, "secondary", "", 50, 1.0, []⟩ : GraphEdge).get_weight "normal") ∧
    ("footway" ∉ C_HIGHWAY.map Prod.fst ∧
      (⟨1, 2, 5, 40, "footway", "", 5, 1.0, []⟩ : GraphEdge).get_weight "rain" =
        (40 : ℝ) * 1.0 * 1.0) :=
  ⟨⟨by simp, c10_get_weight_total.1 ⟨1, 2, 5, 40, "secondary", "", 50, 1.0, []⟩ "snow" (by simp)⟩,
   ⟨by simp [C_HIGHWAY], c10_get_weight_total.2 ⟨1, 2, 5, 40, "footway", "", 5, 1.0, []⟩ "rain"
      (by simp [C_HIGHWAY])⟩⟩

/-! ## House-number interpolation (`lite_geocoding_service.py`, lines 63–166)

The sqlite query `SELECT house_number, lat, lon, node_id FROM addresses WHERE
street_name = ? AND house_number != '' AND house_number IS NOT NULL ORDER BY
CAST(house_number AS INTEGER)` together with the `int()` parse-and-skip loop
is modelled by a list of `AddressRow` records whose `house_number` already
parsed as an integer; the street filter is embedded, the sort order is not
(none of the scans below depends on the order of the fetched rows). -/

/-- Interpolation result (`InterpolatedPoint`). -/
structure InterpolatedPoint where
  lat : ℝ
  lon : ℝ
  house_number : Int
  street_name : String
  method : String

/-- Parsed row of the `addresses` table. -/
structure AddressRow where
  street_name : String
  house_number : Int
  lat : ℝ
  lon : ℝ
  node_id : Int

/-- Body of the nearest-lower scan: `if num < house_number and (lower is None
or num > lower[0]): lower = (num, lat, lon)`. -/
def lowerStep (hn : Int) (lower : Option (Int × ℝ × ℝ)) (r : AddressRow) :
    Option (Int × ℝ × ℝ) :=
  if r.house_number < hn then
    match lower with
    | none => some (r.house_number, r.lat, r.lon)
    | some l =>
        if r.house_number > l.1 then some (r.house_number, r.lat, r.lon) else lower
  else lower

/-- Body of the nearest-upper scan: `if num > house_number and (upper is None
or num < upper[0]): upper = (num, lat, lon)`. -/
def upperStep (hn : Int) (upper : Option (Int × ℝ × ℝ)) (r : AddressRow) :
    Option (Int × ℝ × ℝ) :=
  if r.house_number > hn then
    match upper with
    | none => some (r.house_number, r.lat, r.lon)
    | some u =>
        if r.house_number < u.1 then some (r.house_number, r.lat, r.lon) else upper
  else upper

/-- House-number linear interpolation (`linear_interpolate_house_number`). -/
noncomputable def linear_interpolate_house_number (db : List AddressRow)
    (house_number : Int) (street_name : String) : Option InterpolatedPoint :=
  let houses := db.filter fun r => r.street_name == street_name
  if houses.isEmpty then none
  else
    match houses.find? fun r => r.house_number == house_number with
    | some r => some ⟨r.lat, r.lon, house_number, street_name, "exact"⟩
    | none =>
        let lower := houses.foldl (lowerStep house_number) none
        let upper := houses.foldl (upperStep house_number) none
        match lower, upper with
        | some l, some u =>
            let t := ((house_number - l.1 : Int) : ℝ) / ((u.1 - l.1 : Int) : ℝ)
            some ⟨l.2.1 + (u.2.1 - l.2.1) * t, l.2.2 + (u.2.2 - l.2.2) * t,
                  house_number, street_name, "interpolated"⟩
        | some l, none =>
            some ⟨l.2.1, l.2.2, house_number, street_name, "fallback_lower"⟩
        | none, some u =>
            some ⟨u.2.1, u.2.2, house_number, street_name, "fallback_upper"⟩
        | none, none => none

theorem lowerStep_of_not_lt {hn : Int} {r : AddressRow} (acc : Option (Int × ℝ × ℝ))
    (h : ¬ r.house_number < hn) : lowerStep hn acc r = acc := by
  simp [lowerStep, h]

theorem lowerStep_none {hn : Int} {r : AddressRow} (h : r.house_number < hn) :
    lowerStep hn none r = some (r.house_number, r.lat, r.lon) := by
  simp [lowerStep, h]

theorem lowerStep_some_gt {hn : Int} {r : AddressRow} {l : Int × ℝ × ℝ}
    (h : r.house_number < hn) (hgt : r.house_number > l.1) :
    lowerStep hn (some l) r = some (r.house_number, r.lat, r.lon) := by
  simp [lowerStep, h, hgt]

theorem lowerStep_some_le {hn : Int} {r : AddressRow} {l : Int × ℝ × ℝ}
    (h : r.house_number < hn) (hgt : ¬ r.house_number > l.1) :
    lowerStep hn (some l) r = some l := by
  simp [lowerStep, h, hgt]

theorem upperStep_of_not_gt {hn : Int} {r : AddressRow} (acc : Option (Int × ℝ × ℝ))
    (h : ¬ r.house_number > hn) : upperStep hn acc r = acc := by
  simp [upperStep, h]

theorem upperStep_none {hn : Int} {r : AddressRow} (h : r.house_number > hn) :
    upperStep hn none r = some (r.house_number, r.lat, r.lon) := by
  simp [upperStep, h]

theorem upperStep_some_lt {hn : Int} {r : AddressRow} {u : Int × ℝ × ℝ}
    (h : r.house_number > hn) (hlt : r.house_number < u.1) :
    upperStep hn (some u) r = some (r.house_number, r.lat, r.lon) := by
  simp [upperStep, h, hlt]

theorem upperStep_some_ge {hn : Int} {r : AddressRow} {u : Int × ℝ × ℝ}
    (h : r.house_number > hn) (hlt : ¬ r.house_number < u.1) :
    upperStep hn (some u) r = some u := by
  simp [upperStep, h, hlt]

theorem lowerScan_go (N : Int) (hs : List AddressRow) :
    ∀ acc : Option (Int × ℝ × ℝ),
      (∀ h ∈ hs, h.house_number < N →
        ∃ l, hs.foldl (lowerStep N) acc = some l ∧ h.house_number ≤ l.1) ∧
      (hs.foldl (lowerStep N) acc = acc ∨
        ∃ h, h ∈ hs ∧ h.house_number < N ∧
          hs.foldl (lowerStep N) acc = some (h.house_number, h.lat, h.lon)) ∧
      (∀ l0, acc = some l0 →
        ∃ l, hs.foldl (lowerStep N) acc = some l ∧ l0.1 ≤ l.1) := by
  induction hs with
  | nil =>
      intro acc
      refine ⟨by simp, Or.inl rfl, ?_⟩
      intro l0 h0
      exact ⟨l0, by simpa using h0, le_rfl⟩
  | cons h t ih =>
      intro acc
      rw [List.foldl_cons]
      rcases ih (lowerStep N acc h) with ⟨ih1, ih2, ih3⟩
      have hstep_new : ∀ l1, lowerStep N acc h = some l1 →
          ∃ l, t.foldl (lowerStep N) (lowerStep N acc h) = some l ∧ l1.1 ≤ l.1 := ih3
      refine ⟨?_, ?_, ?_⟩
      · intro h2 hmem hlt2
        rcases List.mem_cons.mp hmem with hh | ht
        · subst hh
          cases acc with
          | none =>
              rcases hstep_new _ (lowerStep_none hlt2) with ⟨l, hl, hle⟩
              exact ⟨l, hl, le_trans (by simp) hle⟩
          | some l0 =>
              by_cases hgt : h2.house_number > l0.1
              · rcases hstep_new _ (lowerStep_some_gt hlt2 hgt) with ⟨l, hl, hle⟩
                exact ⟨l, hl, le_trans (by simp) hle⟩
              · rcases hstep_new _ (lowerStep_some_le hlt2 hgt) with ⟨l, hl, hle⟩
                exact ⟨l, hl, le_trans (not_lt.mp hgt) hle⟩
        · exact ih1 h2 ht hlt2
      · rcases ih2 with heq | ⟨h2, hmem, hlt2, hres⟩
        · by_cases hlt : h.house_number < N
          · cases acc with
            | none =>
                rw [lowerStep_none hlt] at heq
                refine Or.inr ⟨h, List.mem_cons_self h t, hlt, ?_⟩
                rw [lowerStep_none hlt]
                exact heq
            | some l0 =>
                by_cases hgt : h.house_number > l0.1
                · rw [lowerStep_some_gt hlt hgt] at heq
                  refine Or.inr ⟨h, List.mem_cons_self h t, hlt, ?_⟩
                  rw [lowerStep_some_gt hlt hgt]
                  exact heq
                · rw [lowerStep_some_le hlt hgt] at heq
                  refine Or.inl ?_
                  rw [lowerStep_some_le hlt hgt]
                  exact heq
          · rw [lowerStep_of_not_lt acc hlt] at heq
            refine Or.inl ?_
            rw [lowerStep_of_not_lt acc hlt]
            exact heq
        · exact Or.inr ⟨h2, List.mem_cons_of_mem h hmem, hlt2, hres⟩
      · intro l0 h0
        subst h0
        by_cases hlt : h.house_number < N
        · by_cases hgt : h.house_number > l0.1
          · rcases hstep_new _ (lowerStep_some_gt hlt hgt) with ⟨l, hl, hle⟩
            exact ⟨l, hl, le_trans (le_of_lt hgt) (by simpa using hle)⟩
          · rcases hstep_new _ (lowerStep_some_le hlt hgt) with ⟨l, hl, hle⟩
            exact ⟨l, hl, hle⟩
        · rcases hstep_new _ (lowerStep_of_not_lt (some l0) hlt) with ⟨l, hl, hle⟩
          exact ⟨l, hl, hle⟩

theorem upperScan_go (N : Int) (hs : List AddressRow) :
    ∀ acc : Option (Int × ℝ × ℝ),
      (∀ h ∈ hs, N < h.house_number →
        ∃ u, hs.foldl (upperStep N) acc = some u ∧ u.1 ≤ h.house_number) ∧
      (hs.foldl (upperStep N) acc = acc ∨
        ∃ h, h ∈ hs ∧ N < h.house_number ∧
          hs.foldl (upperStep N) acc = some (h.house_number, h.lat, h.lon)) ∧
      (∀ u0, acc = some u0 →
        ∃ u, hs.foldl (upperStep N) acc = some u ∧ u.1 ≤ u0.1) := by
  induction hs with
  | nil =>
      intro acc
      refine ⟨by simp, Or.inl rfl, ?_⟩
      intro u0 h0
      exact ⟨u0, by simpa using h0, le_rfl⟩
  | cons h t ih =>
      intro acc
      rw [List.foldl_cons]
      rcases ih (upperStep N acc h) with ⟨ih1, ih2, ih3⟩
      refine ⟨?_, ?_, ?_⟩
      · intro h2 hmem hlt2
        rcases List.mem_cons.mp hmem with hh | ht
        · subst hh
          cases acc with
          | none =>
              rcases ih3 _ (upperStep_none hlt2) with ⟨u, hu, hle⟩
              exact ⟨u, hu, le_trans hle (by simp)⟩
          | some u0 =>
              by_cases hlt : h2.house_number < u0.1
              · rcases ih3 _ (upperStep_some_lt hlt2 hlt) with ⟨u, hu, hle⟩
                exact ⟨u, hu, le_trans hle (by simp)⟩
              · rcases ih3 _ (upperStep_some_ge hlt2 hlt) with ⟨u, hu, hle⟩
                exact ⟨u, hu, le_trans hle (not_lt.mp hlt)⟩
        · exact ih1 h2 ht hlt2
      · rcases ih2 with heq | ⟨h2, hmem, hlt2, hres⟩
        · by_cases hgtN : h.house_number > N
          · cases acc with
            | none =>
                rw [upperStep_none hgtN] at heq
                refine Or.inr ⟨h, List.mem_cons_self h t, hgtN, ?_⟩
                rw [upperStep_none hgtN]
                exact heq
            | some u0 =>
                by_cases hlt : h.house_number < u0.1
                · rw [upperStep_some_lt hgtN hlt] at heq
                  refine Or.inr ⟨h, List.mem_cons_self h t, hgtN, ?_⟩
                  rw [upperStep_some_lt hgtN hlt]
                  exact heq
                · rw [upperStep_some_ge hgtN hlt] at heq
                  refine Or.inl ?_
                  rw [upperStep_some_ge hgtN hlt]
                  exact heq
          · rw [upperStep_of_not_gt acc hgtN] at heq
            refine Or.inl ?_
            rw [upperStep_of_not_gt acc hgtN]
            exact heq
        · exact Or.inr ⟨h2, List.mem_cons_of_mem h hmem, hlt2, hres⟩
      · intro u0 h0
        subst h0
        by_cases hgtN : h.house_number > N
        · by_cases hlt : h.house_number < u0.1
          · rcases ih3 _ (upperStep_some_lt hgtN hlt) with ⟨u, hu, hle⟩
            exact ⟨u, hu, le_trans hle (by simpa using le_of_lt hlt)⟩
          · rcases ih3 _ (upperStep_some_ge hgtN hlt) with ⟨u, hu, hle⟩
            exact ⟨u, hu, hle⟩
        · rcases ih3 _ (upperStep_of_not_gt (some u0) hgtN) with ⟨u, hu, hle⟩
          exact ⟨u, hu, hle⟩

theorem lowerScan_spec (N : Int) (hs : List AddressRow) :
    (hs.foldl (lowerStep N) none = none → ∀ h ∈ hs, ¬ h.house_number < N) ∧
    (∀ l, hs.foldl (lowerStep N) none = some l →
      ∃ h, h ∈ hs ∧ h.house_number < N ∧ l = (h.house_number, h.lat, h.lon) ∧
        ∀ h2 ∈ hs, h2.house_number < N → h2.house_number ≤ l.1) := by
  rcases lowerScan_go N hs none with ⟨g1, g2, _⟩
  constructor
  · intro hnone h hmem hlt
    rcases g1 h hmem hlt with ⟨l, hl, _⟩
    rw [hnone] at hl
    exact Option.noConfusion hl
  · intro l hl
    rcases g2 with heq | ⟨h, hmem, hlt, hres⟩
    · rw [hl] at heq; exact Option.noConfusion heq
    · rw [hl] at hres
      refine ⟨h, hmem, hlt, Option.some.inj hres, ?_⟩
      intro h2 hmem2 hlt2
      rcases g1 h2 hmem2 hlt2 with ⟨l2, hl2, hle2⟩
      rw [hl] at hl2
      cases Option.some.inj hl2
      exact hle2

theorem upperScan_spec (N : Int) (hs : List AddressRow) :
    (hs.foldl (upperStep N) none = none → ∀ h ∈ hs, ¬ N < h.house_number) ∧
    (∀ u, hs.foldl (upperStep N) none = some u →
      ∃ h, h ∈ hs ∧ N < h.house_number ∧ u = (h.house_number, h.lat, h.lon) ∧
        ∀ h2 ∈ hs, N < h2.house_number → u.1 ≤ h2.house_number) := by
  rcases upperScan_go N hs none with ⟨g1, g2, _⟩
  constructor
  · intro hnone h hmem hlt
    rcases g1 h hmem hlt with ⟨u, hu, _⟩
    rw [hnone] at hu
    exact Option.noConfusion hu
  · intro u hu
    rcases g2 with heq | ⟨h, hmem, hlt, hres⟩
    · rw [hu] at heq; exact Option.noConfusion heq
    · rw [hu] at hres
      refine ⟨h, hmem, hlt, Option.some.inj hres, ?_⟩
      intro h2 hmem2 hlt2
      rcases g1 h2 hmem2 hlt2 with ⟨u2, hu2, hle2⟩
      rw [hu] at hu2
      cases Option.some.inj hu2
      exact hle2
theorem houses_mem (db : List AddressRow) (s : String) (r : AddressRow) :
    r ∈ db.filter (fun r => r.street_name == s) ↔ r ∈ db ∧ r.street_name = s := by
  simp [List.mem_filter]

/-- Claim C8 (amended): exact house numbers return the stored coordinates with
method `"exact"`; a number strictly between a nearest lower `L` and nearest
upper `U` is linearly interpolated with `t = (N − L)/(U − L)` and method
`"interpolated"`; when only `L` (resp. only `U`) exists the returned method is
`"fallback_lower"` (resp. `"fallback_upper"`), not the `"fallback"` stated in
the specification, with the coordinates of the surviving endpoint. -/
theorem c8_interpolation_spec (db : List AddressRow) (N : Int) (s : String) :
    ((∃ r ∈ db, r.street_name = s ∧ r.house_number = N) →
      ∃ r, r ∈ db ∧ r.street_name = s ∧ r.house_number = N ∧
        linear_interpolate_house_number db N s = some ⟨r.lat, r.lon, N, s, "exact"⟩) ∧
    ((∀ r ∈ db, r.street_name = s → r.house_number ≠ N) →
     (∃ r ∈ db, r.street_name = s ∧ r.house_number < N) →
     (∃ r ∈ db, r.street_name = s ∧ N < r.house_number) →
      ∃ rl ru, rl ∈ db ∧ rl.street_name = s ∧ rl.house_number < N ∧
        (∀ r ∈ db, r.street_name = s → r.house_number < N → r.house_number ≤ rl.house_number) ∧
        ru ∈ db ∧ ru.street_name = s ∧ N < ru.house_number ∧
        (∀ r ∈ db, r.street_name = s → N < r.house_number → ru.house_number ≤ r.house_number) ∧
        linear_interpolate_house_number db N s =
          some ⟨rl.lat + (ru.lat - rl.lat) *
                  (((N - rl.house_number : Int) : ℝ) /
                    ((ru.house_number - rl.house_number : Int) : ℝ)),
                rl.lon + (ru.lon - rl.lon) *
                  (((N - rl.house_number : Int) : ℝ) /
                    ((ru.house_number - rl.house_number : Int) : ℝ)),
                N, s, "interpolated"⟩) ∧
    ((∀ r ∈ db, r.street_name = s → r.house_number ≠ N) →
     (∃ r ∈ db, r.street_name = s ∧ r.house_number < N) →
     (∀ r ∈ db, r.street_name = s → ¬ N < r.house_number) →
      ∃ rl, rl ∈ db ∧ rl.street_name = s ∧ rl.house_number < N ∧
        (∀ r ∈ db, r.street_name = s → r.house_number < N → r.house_number ≤ rl.house_number) ∧
        linear_interpolate_house_number db N s =
          some ⟨rl.lat, rl.lon, N, s, "fallback_lower"⟩) ∧
    ((∀ r ∈ db, r.street_name = s → r.house_number ≠ N) →
     (∀ r ∈ db, r.street_name = s → ¬ r.house_number < N) →
     (∃ r ∈ db, r.street_name = s ∧ N < r.house_number) →
      ∃ ru, ru ∈ db ∧ ru.street_name = s ∧ N < ru.house_number ∧
        (∀ r ∈ db, r.street_name = s → N < r.house_number → ru.house_number ≤ r.house_number) ∧
        linear_interpolate_house_number db N s =
          some ⟨ru.lat, ru.lon, N, s, "fallback_upper"⟩) := by
  have hmem := houses_mem db s
  refine ⟨?_, ?_, ?_, ?_⟩
  · -- exact case
    rintro ⟨r, hr, hs, hn⟩
    have hrh : r ∈ db.filter (fun r => r.street_name == s) := (hmem r).mpr ⟨hr, hs⟩
    have hfind : ∃ r0, (db.filter (fun r => r.street_name == s)).find?
        (fun r => r.house_number == N) = some r0 := by
      rw [← Option.isSome_iff_exists]
      rw [List.find?_isSome]
      exact ⟨r, hrh, by simp [hn]⟩
    rcases hfind with ⟨r0, hr0⟩
    have hr0mem : r0 ∈ db.filter (fun r => r.street_name == s) :=
      List.mem_of_find?_eq_some hr0
    have hr0p : r0.house_number = N := by
      have := List.find?_some hr0
      simpa using this
    have hr0db := (hmem r0).mp hr0mem
    refine ⟨r0, hr0db.1, hr0db.2, hr0p, ?_⟩
    have hne : ¬ ((db.filter (fun r => r.street_name == s)).isEmpty = true) := by
      simp only [List.isEmpty_iff]
      exact List.ne_nil_of_mem hr0mem
    simp only [linear_interpolate_house_number]
    rw [if_neg hne, hr0]
  · -- interpolated case
    intro hnoex hlo hup
    have hfindnone : (db.filter (fun r => r.street_name == s)).find?
        (fun r => r.house_number == N) = none := by
      rw [List.find?_eq_none]
      intro r hr
      have := (hmem r).mp hr
      simpa using hnoex r this.1 this.2
    rcases hlo with ⟨r1, hr1, hs1, hlt1⟩
    rcases hup with ⟨r2, hr2, hs2, hlt2⟩
    have hr1h := (hmem r1).mpr ⟨hr1, hs1⟩
    have hr2h := (hmem r2).mpr ⟨hr2, hs2⟩
    have hne : ¬ ((db.filter (fun r => r.street_name == s)).isEmpty = true) := by
      simp only [List.isEmpty_iff]
      exact List.ne_nil_of_mem hr1h
    rcases lowerScan_go N (db.filter (fun r => r.street_name == s)) none with ⟨g1, _, _⟩
    rcases g1 r1 hr1h hlt1 with ⟨l, hl, _⟩
    rcases upperScan_go N (db.filter (fun r => r.street_name == s)) none with ⟨g1u, _, _⟩
    rcases g1u r2 hr2h hlt2 with ⟨u, hu, _⟩
    rcases (lowerScan_spec N _).2 l hl with ⟨rl, hrlmem, hrllt, hrleq, hrlmax⟩
    rcases (upperScan_spec N _).2 u hu with ⟨ru, hrumem, hrult, hrueq, hrumin⟩
    have hrldb := (hmem rl).mp hrlmem
    have hrudb := (hmem ru).mp hrumem
    refine ⟨rl, ru, hrldb.1, hrldb.2, hrllt, ?_, hrudb.1, hrudb.2, hrult, ?_, ?_⟩
    · intro r hr hsr hltr
      have := hrlmax r ((hmem r).mpr ⟨hr, hsr⟩) hltr
      rw [hrleq] at this
      exact this
    · intro r hr hsr hltr
      have := hrumin r ((hmem r).mpr ⟨hr, hsr⟩) hltr
      rw [hrueq] at this
      exact this
    · simp only [linear_interpolate_house_number]
      rw [if_neg hne, hfindnone, hl, hu, hrleq, hrueq]
  · -- fallback_lower case
    intro hnoex hlo hnoup
    have hfindnone : (db.filter (fun r => r.street_name == s)).find?
        (fun r => r.house_number == N) = none := by
      rw [List.find?_eq_none]
      intro r hr
      have := (hmem r).mp hr
      simpa using hnoex r this.1 this.2
    rcases hlo with ⟨r1, hr1, hs1, hlt1⟩
    have hr1h := (hmem r1).mpr ⟨hr1, hs1⟩
    have hne : ¬ ((db.filter (fun r => r.street_name == s)).isEmpty = true) := by
      simp only [List.isEmpty_iff]
      exact List.ne_nil_of_mem hr1h
    rcases lowerScan_go N (db.filter (fun r => r.street_name == s)) none with ⟨g1, _, _⟩
    rcases g1 r1 hr1h hlt1 with ⟨l, hl, _⟩
    have huno : (db.filter (fun r => r.street_name == s)).foldl (upperStep N) none = none := by
      rcases upperScan_go N (db.filter (fun r => r.street_name == s)) none with ⟨_, g2u, _⟩
      rcases g2u with heq | ⟨h2, hmem2, hlt2, _⟩
      · exact heq
      · have := (hmem h2).mp hmem2
        exact absurd hlt2 (hnoup h2 this.1 this.2)
    rcases (lowerScan_spec N _).2 l hl with ⟨rl, hrlmem, hrllt, hrleq, hrlmax⟩
    have hrldb := (hmem rl).mp hrlmem
    refine ⟨rl, hrldb.1, hrldb.2, hrllt, ?_, ?_⟩
    · intro r hr hsr hltr
      have := hrlmax r ((hmem r).mpr ⟨hr, hsr⟩) hltr
      rw [hrleq] at this
      exact this
    · simp only [linear_interpolate_house_number]
      rw [if_neg hne, hfindnone, hl, huno, hrleq]
  · -- fallback_upper case
    intro hnoex hnolo hup
    have hfindnone : (db.filter (fun r => r.street_name == s)).find?
        (fun r => r.house_number == N) = none := by
      rw [List.find?_eq_none]
      intro r hr
      have := (hmem r).mp hr
      simpa using hnoex r this.1 this.2
    rcases hup with ⟨r2, hr2, hs2, hlt2⟩
    have hr2h := (hmem r2).mpr ⟨hr2, hs2⟩
    have hne : ¬ ((db.filter (fun r => r.street_name == s)).isEmpty = true) := by
      simp only [List.isEmpty_iff]
      exact List.ne_nil_of_mem hr2h
    rcases upperScan_go N (db.filter (fun r => r.street_name == s)) none with ⟨g1u, _, _⟩
    rcases g1u r2 hr2h hlt2 with ⟨u, hu, _⟩
    have hlno : (db.filter (fun r => r.street_name == s)).foldl (lowerStep N) none = none := by
      rcases lowerScan_go N (db.filter (fun r => r.street_name == s)) none with ⟨_, g2l, _⟩
      rcases g2l with heq | ⟨h2, hmem2, hlt2l, _⟩
      · exact heq
      · have := (hmem h2).mp hmem2
        exact absurd hlt2l (hnolo h2 this.1 this.2)
    rcases (upperScan_spec N _).2 u hu with ⟨ru, hrumem, hrult, hrueq, hrumin⟩
    have hrudb := (hmem ru).mp hrumem
    refine ⟨ru, hrudb.1, hrudb.2, hrult, ?_, ?_⟩
    · intro r hr hsr hltr
      have := hrumin r ((hmem r).mpr ⟨hr, hsr⟩) hltr
      rw [hrueq] at this
      exact this
    · simp only [linear_interpolate_house_number]
      rw [if_neg hne, hfindnone, hu, hlno, hrueq]

/-- Counterexample for C8 as stated: on a street whose only numbered entry is
house 80, asking for house 90 yields method `"fallback_lower"`, not the
`"fallback"` method named by the specification. -/
theorem c8_fallback_method_counterexample :
    linear_interpolate_house_number [⟨"X", 80, 21, 105, 7⟩] 90 "X" =
      some ⟨21, 105, 90, "X", "fallback_lower"⟩ ∧
    "fallback_lower" ≠ "fallback" := by
  constructor
  · rfl
  · decide

/-- Witness for C8 on a street with houses 80 and 100, querying house 88. -/
theorem c8_interpolation_spec_witness :
    (∀ r ∈ [(⟨"X", 80, 21, 105, 7⟩ : AddressRow), ⟨"X", 100, 22, 106, 8⟩],
        r.street_name = "X" → r.house_number ≠ 88) ∧
    (∃ r ∈ [(⟨"X", 80, 21, 105, 7⟩ : AddressRow), ⟨"X", 100, 22, 106, 8⟩],
        r.street_name = "X" ∧ r.house_number < 88) ∧
    (∃ r ∈ [(⟨"X", 80, 21, 105, 7⟩ : AddressRow), ⟨"X", 100, 22, 106, 8⟩],
        r.street_name = "X" ∧ (88 : Int) < r.house_number) ∧
    (∃ rl ru, rl ∈ [(⟨"X", 80, 21, 105, 7⟩ : AddressRow), ⟨"X", 100, 22, 106, 8⟩] ∧
        rl.street_name = "X" ∧ rl.house_number < 88 ∧
        (∀ r ∈ [(⟨"X", 80, 21, 105, 7⟩ : AddressRow), ⟨"X", 100, 22, 106, 8⟩],
          r.street_name = "X" → r.house_number < 88 → r.house_number ≤ rl.house_number) ∧
        ru ∈ [(⟨"X", 80, 21, 105, 7⟩ : AddressRow), ⟨"X", 100, 22, 106, 8⟩] ∧
        ru.street_name = "X" ∧ (88 : Int) < ru.house_number ∧
        (∀ r ∈ [(⟨"X", 80, 21, 105, 7⟩ : AddressRow), ⟨"X", 100, 22, 106, 8⟩],
          r.street_name = "X" → (88 : Int) < r.house_number → ru.house_number ≤ r.house_number) ∧
        linear_interpolate_house_number
            [(⟨"X", 80, 21, 105, 7⟩ : AddressRow), ⟨"X", 100, 22, 106, 8⟩] 88 "X" =
          some ⟨rl.lat + (ru.lat - rl.lat) *
                  (((88 - rl.house_number : Int) : ℝ) /
                    ((ru.house_number - rl.house_number : Int) : ℝ)),
                rl.lon + (ru.lon - rl.lon) *
                  (((88 - rl.house_number : Int) : ℝ) /
                    ((ru.house_number - rl.house_number : Int) : ℝ)),
                88, "X", "interpolated"⟩) := by
  have h1 : ∀ r ∈ [(⟨"X", 80, 21, 105, 7⟩ : AddressRow), ⟨"X", 100, 22, 106, 8⟩],
      r.street_name = "X" → r.house_number ≠ 88 := by
    intro r hr
    rcases List.mem_cons.mp hr with h | h
    · subst h; intro _; decide
    · rcases List.mem_cons.mp h with h | h
      · subst h; intro _; decide
      · exact absurd h (List.not_mem_nil r)
  have h2 : ∃ r ∈ [(⟨"X", 80, 21, 105, 7⟩ : AddressRow), ⟨"X", 100, 22, 106, 8⟩],
      r.street_name = "X" ∧ r.house_number < 88 :=
    ⟨⟨"X", 80, 21, 105, 7⟩, List.mem_cons_self _ _, rfl, by decide⟩
  have h3 : ∃ r ∈ [(⟨"X", 80, 21, 105, 7⟩ : AddressRow), ⟨"X", 100, 22, 106, 8⟩],
      r.street_name = "X" ∧ (88 : Int) < r.house_number :=
    ⟨⟨"X", 100, 22, 106, 8⟩, List.mem_cons_of_mem _ (List.mem_cons_self _ _), rfl, by decide⟩
  exact ⟨h1, h2, h3,
    (c8_interpolation_spec [⟨"X", 80, 21, 105, 7⟩, ⟨"X", 100, 22, 106, 8⟩] 88 "X").2.1 h1 h2 h3⟩

/-! ## Haversine distance (`graph_builder.py`, lines 184–190) -/

/-- Degrees to radians (`math.radians`). -/
noncomputable def radians (x : ℝ) : ℝ := x * Real.pi / 180

/-- Two-argument arctangent (`math.atan2`), with the standard C convention on
axes and quadrants. -/
noncomputable def atan2 (y x : ℝ) : ℝ :=
  if 0 < x then Real.arctan (y / x)
  else if x < 0 then
    (if 0 ≤ y then Real.arctan (y / x) + Real.pi else Real.arctan (y / x) - Real.pi)
  else
    (if 0 < y then Real.pi / 2 else if y < 0 then -(Real.pi / 2) else 0)

/-- Great-circle distance in meters (`haversine_distance`). -/
noncomputable def haversine_distance (lat1 lon1 lat2 lon2 : ℝ) : ℝ :=
  let R : ℝ := 6371000
  let lat1_rad := radians lat1
  let lat2_rad := radians lat2
  let delta_lat := radians (lat2 - lat1)
  let delta_lon := radians (lon2 - lon1)
  let a := Real.sin (delta_lat / 2) ^ 2 +
    Real.cos lat1_rad * Real.cos lat2_rad * Real.sin (delta_lon / 2) ^ 2
  R * 2 * atan2 (Real.sqrt a) (Real.sqrt (1 - a))

/-! ## OSM data model (`overpass_service.py`, lines 26–46)

`OSMNode.tags` feeds only the (unembedded) address extraction and is
omitted. -/

/-- Parsed OSM node (`OSMNode`). -/
structure OSMNode where
  id : Int
  lat : ℝ
  lon : ℝ

/-- Parsed OSM way (`OSMWay`). -/
structure OSMWay where
  id : Int
  nodes : List Int
  tags : List (String × String)

/-- Parsed OSM extract (`OSMData`): nodes keyed by id, plus the way list. -/
structure OSMData where
  nodes : List (Int × OSMNode)
  ways : List OSMWay

/-! ## Way filter and raw graph (`graph_builder.py`, lines 193–254) -/

/-- One-way test (`is_oneway`): `tags.get("oneway", "no") in ("yes", "1",
"true", "-1")`. -/
def is_oneway (tags : List (String × String)) : Bool :=
  ["yes", "1", "true", "-1"].contains (dgetD tags "oneway" "no")

/-- Reverse one-way test (`is_reverse_oneway`): `tags.get("oneway") == "-1"`. -/
def is_reverse_oneway (tags : List (String × String)) : Bool :=
  dget? tags "oneway" == some "-1"

/-- Way filter (`filter_valid_ways`): keep ways whose `highway` tag is
non-empty, not excluded, and allowed. -/
def filter_valid_ways (osm : OSMData) : List OSMWay :=
  osm.ways.filter fun way =>
    let highway := dgetD way.tags "highway" ""
    highway != "" && !(EXCLUDED_HIGHWAYS.contains highway) &&
      ALLOWED_HIGHWAYS.contains highway

/-- Union of the node-id lists of the retained ways
(`used_node_ids.update(way.nodes)`), as an insertion-ordered set. -/
def collectUsedNodeIds (valid_ways : List OSMWay) : List Int :=
  valid_ways.foldl (fun acc way => way.nodes.foldl sinsert acc) []

/-- Adjacent index pairs of a way's node list
(`for i in range(len(way.nodes) - 1)`). -/
def adjacentPairs : List Int → List (Int × Int)
  | a :: b :: rest => (a, b) :: adjacentPairs (b :: rest)
  | _ => []

/-- Body of the edge loop of `build_raw_graph` for one adjacent pair: skip if
either node is missing, otherwise add edges per the one-way policy with the
two-point polyline and its reversal. -/
noncomputable def addPairEdges (way_id : Int) (highway_type name : String)
    (speed c_highway : ℝ) (reverse oneway : Bool) (g : LightGraph)
    (from_id to_id : Int) : LightGraph :=
  match g.get_node from_id, g.get_node to_id with
  | some from_node, some to_node =>
      let length := haversine_distance from_node.lat from_node.lon to_node.lat to_node.lon
      let geometry : List (ℝ × ℝ) :=
        [(from_node.lon, from_node.lat), (to_node.lon, to_node.lat)]
      if reverse then
        g.add_edge ⟨to_id, from_id, way_id, length, highway_type, name, speed,
          c_highway, geometry.reverse⟩
      else if oneway then
        g.add_edge ⟨from_id, to_id, way_id, length, highway_type, name, speed,
          c_highway, geometry⟩
      else
        (g.add_edge ⟨from_id, to_id, way_id, length, highway_type, name, speed,
          c_highway, geometry⟩).add_edge
          ⟨to_id, from_id, way_id, length, highway_type, name, speed,
            c_highway, geometry.reverse⟩
  | _, _ => g

/-- Edge loop of `build_raw_graph` for one way: read the tag-derived
parameters once, then process every adjacent pair. -/
noncomputable def addWayEdges (g : LightGraph) (way : OSMWay) : LightGraph :=
  let highway_type := dgetD way.tags "highway" "unclassified"
  let name := dgetD way.tags "name" ""
  let speed := dgetD SPEED_LIMITS highway_type 30
  let c_highway := dgetD C_HIGHWAY highway_type 1.0
  let oneway := is_oneway way.tags
  let reverse := is_reverse_oneway way.tags
  (adjacentPairs way.nodes).foldl
    (fun g p => addPairEdges way.id highway_type name speed c_highway
      reverse oneway g p.1 p.2) g

/-- Raw graph construction (`build_raw_graph`): add every referenced node
present in the OSM extract, then add directed edges per way. -/
noncomputable def build_raw_graph (osm : OSMData) (valid_ways : List OSMWay) :
    LightGraph :=
  let g0 := (collectUsedNodeIds valid_ways).foldl
    (fun g node_id =>
      match dget? osm.nodes node_id with
      | some osm_node => g.add_node ⟨osm_node.id, osm_node.lat, osm_node.lon⟩
      | none => g) LightGraph.empty
  valid_ways.foldl addWayEdges g0

/-! ## LSCC filtering (`graph_builder.py`, lines 261–345)

The two iterative depth-first searches of Kosaraju's algorithm use explicit
stacks whose `append`/`pop` pairs work at the list tail; the embedding keeps
the head of the list as the stack top and therefore pushes the pending
neighbors in reverse adjacency-list order, exactly matching the pop order of
the source.  The unbounded `while stack` loops carry fuel
`node_count + edge_count + 2`, an upper bound on the total number of pushes
of any run. -/

/-- First DFS pass body (`dfs1`): returns the updated visited set and
finish-order list. -/
def dfs1Go (g : LightGraph) :
    Nat → List (Int × Bool) → List Int → List Int → List Int × List Int
  | 0, _, visited, finish => (visited, finish)
  | _ + 1, [], visited, finish => (visited, finish)
  | fuel + 1, (n, processed) :: stack, visited, finish =>
      if processed then dfs1Go g fuel stack visited (finish ++ [n])
      else if n ∈ visited then dfs1Go g fuel stack visited finish
      else
        dfs1Go g fuel
          ((((dgetD g.adjacency n []).filter fun q => decide (q.1 ∉ visited)).reverse.map
              fun q => (q.1, false)) ++ (n, true) :: stack)
          (sinsert visited n) finish

/-- Second DFS pass body (`dfs2`) over the reverse graph: returns the updated
visited set and the collected component. -/
def dfs2Go (g : LightGraph) :
    Nat → List Int → List Int → List Int → List Int × List Int
  | 0, _, visited, component => (visited, component)
  | _ + 1, [], visited, component => (visited, component)
  | fuel + 1, n :: stack, visited, component =>
      if n ∈ visited then dfs2Go g fuel stack visited component
      else
        dfs2Go g fuel
          ((((dgetD g.reverse_adjacency n []).filter fun q => decide (q.1 ∉ visited)).reverse.map
              fun q => q.1) ++ stack)
          (sinsert visited n) (component ++ [n])

/-- DFS fuel: every run pushes at most one entry per node visit plus one per
adjacency entry. -/
def dfsFuel (g : LightGraph) : Nat :=
  g.node_count + g.edge_count + 2

/-- Largest strongly connected component (`find_largest_scc`), by Kosaraju's
algorithm; returns the node set as a list. -/
def find_largest_scc (g : LightGraph) : List Int :=
  if g.nodes.isEmpty then []
  else
    let pass1 := g.nodes.foldl
      (fun acc p =>
        if p.1 ∈ acc.1 then acc
        else dfs1Go g (dfsFuel g) [(p.1, false)] acc.1 acc.2)
      (([] : List Int), ([] : List Int))
    let finish_order := pass1.2
    let pass2 := finish_order.reverse.foldl
      (fun acc nid =>
        if nid ∈ acc.1 then acc
        else
          let r := dfs2Go g (dfsFuel g) [nid] acc.1 []
          (r.1, acc.2 ++ [r.2]))
      (([] : List Int), ([] : List (List Int)))
    match pass2.2 with
    | [] => []
    | s0 :: rest => rest.foldl (fun best s => if s.length > best.length then s else best) s0

/-- LSCC restriction (`filter_to_lscc`): keep the LSCC nodes and every edge
whose endpoints both lie in the LSCC. -/
def filter_to_lscc (g : LightGraph) (lscc_nodes : List Int) : LightGraph :=
  let f0 := lscc_nodes.foldl
    (fun fg node_id =>
      match dget? g.nodes node_id with
      | some n => fg.add_node n
      | none => fg) LightGraph.empty
  g.adjacency.foldl
    (fun fg p =>
      if p.1 ∈ lscc_nodes then
        p.2.foldl (fun fg q => if q.1 ∈ lscc_nodes then fg.add_edge q.2 else fg) fg
      else fg) f0

/-! ## Degree-2 compression (`graph_builder.py`, lines 352–413) -/

/-- Distinct out- plus in-neighbors of a node
(`out_neighbors | in_neighbors`). -/
def uniqueNeighbors (g : LightGraph) (nid : Int) : List Int :=
  (dgetD g.reverse_adjacency nid []).foldl (fun acc q => sinsert acc q.1)
    ((dgetD g.adjacency nid []).foldl (fun acc q => sinsert acc q.1) [])

/-- Distinct highway types of the incident edges (`out_types | in_types`). -/
def incidentTypes (g : LightGraph) (nid : Int) : List String :=
  (dgetD g.reverse_adjacency nid []).foldl (fun acc q => sinsert acc q.2.highway_type)
    ((dgetD g.adjacency nid []).foldl (fun acc q => sinsert acc q.2.highway_type) [])

/-- Node classification of `compress_graph`: `(nodes_to_keep, degree_2_nodes)`.
A node is chain-interior when it has exactly two distinct neighbors and all
incident edges share one highway type. -/
def classifyNodes (g : LightGraph) : List Int × List Int :=
  g.nodes.foldl
    (fun acc p =>
      if (uniqueNeighbors g p.1).length = 2 then
        if (incidentTypes g p.1).length = 1 then (acc.1, acc.2 ++ [p.1])
        else (acc.1 ++ [p.1], acc.2)
      else (acc.1 ++ [p.1], acc.2))
    (([] : List Int), ([] : List Int))

/-- Chain walk of `compress_graph` (`while current in degree_2_nodes`),
accumulating path nodes, geometry, and total length; fuel-indexed, with the
fuel chosen large enough for every terminating run of the source loop. -/
def walkChain (g : LightGraph) (deg2 : List Int) :
    Nat → Int → Int → List Int → List (ℝ × ℝ) → ℝ →
      List Int × List (ℝ × ℝ) × ℝ
  | 0, _, _, path, geom, len => (path, geom, len)
  | fuel + 1, prev, cur, path, geom, len =>
      if cur ∈ deg2 then
        match (dgetD g.adjacency cur []).filter (fun q => decide (q.1 ≠ prev)) with
        | [] => (path, geom, len)
        | (next_node, next_edge) :: _ =>
            walkChain g deg2 fuel cur next_node (path ++ [next_node])
              (geom ++ next_edge.geometry.drop 1) (len + next_edge.length)
      else (path, geom, len)

/-- Walk fuel: a terminating source walk never repeats a `(prev, current)`
state, so it takes at most `node_count²` steps. -/
def walkFuel (g : LightGraph) : Nat :=
  (g.node_count + 1) * (g.node_count + 1)

/-- Body of the chain-emission loop of `compress_graph` for one outgoing edge
of a retained start node: skip already-processed `(start, neighbor)` pairs,
walk the chain, and emit a compressed edge when the chain ends at a retained
node. -/
noncomputable def compressStep (g : LightGraph) (keep deg2 : List Int)
    (start_node : Int) (acc : LightGraph × List (Int × Int))
    (q : Int × GraphEdge) : LightGraph × List (Int × Int) :=
  if (start_node, q.1) ∈ acc.2 then acc
  else
    let w := walkChain g deg2 (walkFuel g) start_node q.1
      [start_node, q.1] q.2.geometry q.2.length
    let end_node := w.1.getLastD 0
    if end_node ∈ keep then
      (acc.1.add_edge ⟨start_node, end_node, q.2.way_id, w.2.2,
          q.2.highway_type, q.2.name, q.2.speed, q.2.c_highway, w.2.1⟩,
       sinsert acc.2 (start_node, end_node))
    else acc

/-- Degree-2 compression (`compress_graph`). -/
noncomputable def compress_graph (g : LightGraph) : LightGraph :=
  let keep := (classifyNodes g).1
  let deg2 := (classifyNodes g).2
  let c0 := keep.foldl
    (fun cg node_id =>
      match dget? g.nodes node_id with
      | some n => cg.add_node n
      | none => cg) LightGraph.empty
  let result := keep.foldl
    (fun acc start_node =>
      (dgetD g.adjacency start_node []).foldl (compressStep g keep deg2 start_node) acc)
    (c0, ([] : List (Int × Int)))
  result.1

/-- Full pipeline (`build_graph_from_osm`): filter, raw graph, LSCC, compress.
The final KD-tree build mutates only the omitted scipy cache fields. -/
noncomputable def build_graph_from_osm (osm : OSMData) : LightGraph :=
  let valid_ways := filter_valid_ways osm
  if valid_ways.isEmpty then LightGraph.empty
  else
    let raw_graph := build_raw_graph osm valid_ways
    let lscc_nodes := find_largest_scc raw_graph
    if lscc_nodes.isEmpty then LightGraph.empty
    else compress_graph (filter_to_lscc raw_graph lscc_nodes)

/-! ## Claim C3: self-loops in compression -/

theorem dset_mem {K V : Type} [DecidableEq K] {l : List (K × V)} {k : K} {v : V}
    {p : K × V} (hp : p ∈ dset l k v) : p ∈ l ∨ p = (k, v) := by
  induction l with
  | nil => simpa [dset] using hp
  | cons q rest ih =>
      obtain ⟨k2, v2⟩ := q
      by_cases h : k2 = k
      · rw [dset, if_pos h] at hp
        rcases List.mem_cons.mp hp with h1 | h1
        · subst h; exact Or.inr h1
        · exact Or.inl (List.mem_cons_of_mem _ h1)
      · rw [dset, if_neg h] at hp
        rcases List.mem_cons.mp hp with h1 | h1
        · exact Or.inl (h1 ▸ List.mem_cons_self _ _)
        · rcases ih h1 with h2 | h2
          · exact Or.inl (List.mem_cons_of_mem _ h2)
          · exact Or.inr h2

theorem dmodify_mem {K V : Type} [DecidableEq K] {l : List (K × V)} {k : K}
    {f : V → V} {p : K × V} (hp : p ∈ dmodify l k f) :
    p ∈ l ∨ (p.1 = k ∧ ∃ v, (k, v) ∈ l ∧ p.2 = f v) := by
  unfold dmodify at hp
  rcases List.mem_map.mp hp with ⟨q, hq, hpe⟩
  by_cases h : q.1 = k
  · rw [if_pos h] at hpe
    refine Or.inr ⟨by rw [← hpe]; exact h, q.2, ?_, by rw [← hpe]⟩
    have : q = (k, q.2) := by rw [← h]
    exact this ▸ hq
  · rw [if_neg h] at hpe
    exact Or.inl (hpe ▸ hq)

theorem mem_edgeKeys {g : LightGraph} {p : Int × Int} :
    p ∈ g.edgeKeys ↔ ∃ q ∈ g.adjacency, ∃ r ∈ q.2, p = (q.1, r.1) := by
  unfold LightGraph.edgeKeys
  constructor
  · intro hp
    rcases List.mem_flatMap.mp hp with ⟨q, hq, hpq⟩
    rcases List.mem_map.mp hpq with ⟨r, hr, hpe⟩
    exact ⟨q, hq, r, hr, hpe.symm⟩
  · rintro ⟨q, hq, r, hr, rfl⟩
    exact List.mem_flatMap.mpr ⟨q, hq, List.mem_map.mpr ⟨r, hr, rfl⟩⟩

theorem edgeKeys_add_node {g : LightGraph} {n : GraphNode} {p : Int × Int}
    (hp : p ∈ (g.add_node n).edgeKeys) : p ∈ g.edgeKeys := by
  rcases mem_edgeKeys.mp hp with ⟨q, hq, r, hr, rfl⟩
  apply mem_edgeKeys.mpr
  refine ⟨q, ?_, r, hr, rfl⟩
  unfold LightGraph.add_node at hq
  by_cases h : dcontains g.adjacency n.id = true
  · rw [if_pos h] at hq; exact hq
  · rw [if_neg h] at hq
    rcases dset_mem hq with h1 | h1
    · exact h1
    · rw [h1] at hr; exact absurd hr (List.not_mem_nil r)

theorem edgeKeys_add_edge {g : LightGraph} {e : GraphEdge} {p : Int × Int}
    (hp : p ∈ (g.add_edge e).edgeKeys) :
    p ∈ g.edgeKeys ∨ p = (e.from_node, e.to_node) := by
  rcases mem_edgeKeys.mp hp with ⟨q, hq, r, hr, rfl⟩
  unfold LightGraph.add_edge at hq
  simp only at hq
  have hadj2 : ∀ q2 : Int × List (Int × GraphEdge),
      q2 ∈ (if dcontains g.adjacency e.from_node = true then g.adjacency
            else dset g.adjacency e.from_node []) →
      q2 ∈ g.adjacency ∨ q2 = (e.from_node, []) := by
    intro q2 hq2
    by_cases h : dcontains g.adjacency e.from_node = true
    · rw [if_pos h] at hq2; exact Or.inl hq2
    · rw [if_neg h] at hq2; exact dset_mem hq2
  rcases dmodify_mem hq with h1 | ⟨hk, lst, hlst, hq2⟩
  · rcases hadj2 q h1 with h2 | h2
    · exact Or.inl (mem_edgeKeys.mpr ⟨q, h2, r, hr, rfl⟩)
    · rw [h2] at hr; exact absurd hr (List.not_mem_nil r)
  · rw [hq2] at hr
    rcases List.mem_append.mp hr with h2 | h2
    · rcases hadj2 (e.from_node, lst) hlst with h3 | h3
      · refine Or.inl (mem_edgeKeys.mpr ⟨(e.from_node, lst), h3, r, h2, ?_⟩)
        rw [hk]
      · have : lst = [] := congrArg Prod.snd h3
        rw [this] at h2; exact absurd h2 (List.not_mem_nil r)
    · have : r = (e.to_node, e) := by simpa using h2
      rw [this, hk]
      exact Or.inr rfl

theorem edgeKeys_nodes_fold (ks : List Int) (src : List (Int × GraphNode)) :
    ∀ (acc : LightGraph) (p : Int × Int),
      p ∈ (ks.foldl (fun cg node_id =>
        match dget? src node_id with
        | some n => cg.add_node n
        | none => cg) acc).edgeKeys → p ∈ acc.edgeKeys := by
  induction ks with
  | nil => intro acc p hp; exact hp
  | cons k rest ih =>
      intro acc p hp
      rw [List.foldl_cons] at hp
      have := ih _ p hp
      cases hsrc : dget? src k with
      | none => rw [hsrc] at this; exact this
      | some n => rw [hsrc] at this; exact edgeKeys_add_node this

theorem compress_inner_inv (g : LightGraph) (keep deg2 : List Int)
    (start : Int) (hstart : start ∈ keep) :
    ∀ (entries : List (Int × GraphEdge)) (acc : LightGraph × List (Int × Int)),
      (∀ p ∈ acc.1.edgeKeys, p.1 ∈ keep ∧ p.2 ∈ keep) →
      ∀ p ∈ (entries.foldl (compressStep g keep deg2 start) acc).1.edgeKeys,
        p.1 ∈ keep ∧ p.2 ∈ keep := by
  intro entries
  induction entries with
  | nil => intro acc hinv; exact hinv
  | cons q rest ih =>
      intro acc hinv
      rw [List.foldl_cons]
      apply ih
      simp only [compressStep]
      split_ifs with h1 h2
      · exact hinv
      · intro p hp
        rcases edgeKeys_add_edge hp with h3 | h3
        · exact hinv p h3
        · rw [h3]
          exact ⟨hstart, h2⟩
      · exact hinv

theorem compress_outer_inv (g : LightGraph) (keep deg2 : List Int) :
    ∀ (ks : List Int), (∀ k ∈ ks, k ∈ keep) →
      ∀ (acc : LightGraph × List (Int × Int)),
        (∀ p ∈ acc.1.edgeKeys, p.1 ∈ keep ∧ p.2 ∈ keep) →
        ∀ p ∈ (ks.foldl (fun acc start_node =>
            (dgetD g.adjacency start_node []).foldl
              (compressStep g keep deg2 start_node) acc) acc).1.edgeKeys,
          p.1 ∈ keep ∧ p.2 ∈ keep := by
  intro ks
  induction ks with
  | nil => intro _ acc hinv; exact hinv
  | cons k rest ih =>
      intro hks acc hinv
      rw [List.foldl_cons]
      apply ih (fun k2 hk2 => hks k2 (List.mem_cons_of_mem _ hk2))
      exact compress_inner_inv g keep deg2 k (hks k (List.mem_cons_self _ _)) _ acc hinv

/-- Concrete counterexample graph: a bidirectional triangle 1–2–3 with a
pendant node 4 attached to node 1.  Nodes 2 and 3 are chain-interior, nodes 1
and 4 are retained, and the chain 1→2→3→1 loops back to its start. -/
noncomputable def cexGraph : LightGraph :=
  let g0 := (([1, 2, 3, 4] : List Int).map fun i => (⟨i, 0, 0⟩ : GraphNode)).foldl
    LightGraph.add_node LightGraph.empty
  ([((1 : Int), (2 : Int)), (2, 1), (2, 3), (3, 2), (3, 1), (1, 3), (1, 4),
    (4, 1)]).foldl
    (fun g p => g.add_edge ⟨p.1, p.2, 9, 1, "residential", "", 30, 1.2, []⟩) g0

/-- Counterexample for C3 as stated: compressing `cexGraph` produces the
self-loop edge `(1, 1)` from the chain `1→2→3→1`, so it is not the case that
every compressed edge has distinct endpoints. -/
theorem c3_compress_self_loop_counterexample :
    (1, 1) ∈ (compress_graph cexGraph).edgeKeys ∧
    ¬ (∀ p ∈ (compress_graph cexGraph).edgeKeys, p.1 ≠ p.2) := by
  have h : ((1 : Int), (1 : Int)) ∈ (compress_graph cexGraph).edgeKeys := by decide
  exact ⟨h, fun hall => (hall (1, 1) h) rfl⟩

/-- Claim C3 (amended): `compress_graph` emits a compressed edge for every
chain that ends at a retained node, with no exclusion of the start node
itself.  Hence both endpoints of every compressed edge are retained nodes,
but a chain that loops back to its retained start node produces a self-loop
edge, as the concrete graph `cexGraph` realises. -/
theorem c3_compress_edges_join_retained :
    (∀ (g : LightGraph) (p : Int × Int), p ∈ (compress_graph g).edgeKeys →
        p.1 ∈ (classifyNodes g).1 ∧ p.2 ∈ (classifyNodes g).1) ∧
    (1, 1) ∈ (compress_graph cexGraph).edgeKeys := by
  constructor
  · intro g p hp
    unfold compress_graph at hp
    simp only at hp
    refine compress_outer_inv g (classifyNodes g).1 (classifyNodes g).2
      (classifyNodes g).1 (fun _ hk => hk) _ ?_ p hp
    intro p2 hp2
    have := edgeKeys_nodes_fold (classifyNodes g).1 g.nodes LightGraph.empty p2 hp2
    simp [LightGraph.empty, LightGraph.edgeKeys] at this
  · decide

/-- Witness for C3: the self-loop edge of `cexGraph` indeed joins retained
nodes (node 1 is retained). -/
theorem c3_compress_edges_join_retained_witness :
    (1, 1) ∈ (compress_graph cexGraph).edgeKeys ∧
    (1 : Int) ∈ (classifyNodes cexGraph).1 := by
  have h : ((1 : Int), (1 : Int)) ∈ (compress_graph cexGraph).edgeKeys := by decide
  exact ⟨h, (c3_compress_edges_join_retained.1 cexGraph (1, 1) h).1⟩

/-! ## A* search (`fast_pathfinding_service.py`, lines 28–471)

The priority queue of `heapq` is modelled by its observable behavior: the
open set is a list of `(f, counter, node)` triples and a pop removes the
lexicographically least triple (counters are unique, so pop order is fully
determined).  The wall-clock field `search_time_ms` of the stats dict is real
time and is omitted.  The unbounded `while open_set` loop carries fuel
`node_count + 3`: a node enters `open_set_hash` with its unique push and is
closed at its expanding pop, so any run performs at most `node_count + 1`
pops. -/

/-- Search statistics (the stats dict, minus the wall-clock entry). -/
structure SearchStats where
  nodes_visited : Nat
  path_length : Option Nat := none
  algorithm : Option String := none
  weather : Option String := none

/-- Search result (`PathResult`). -/
structure PathResult where
  success : Bool
  path : Option (List Int) := none
  distance : ℝ := 0
  duration : ℝ := 0
  geometry : Option (List (ℝ × ℝ)) := none
  error : Option String := none
  stats : Option SearchStats := none

/-- Admissible heuristic (`heuristic`): haversine distance times 0.7. -/
noncomputable def heuristic (node1 node2 : GraphNode) : ℝ :=
  haversine_distance node1.lat node1.lon node2.lat node2.lon * 0.7

/-- Predecessor walk of `_reconstruct_path_with_geometry` (`while current is
not None`), fuelled by the size of the predecessor map. -/
def reconstructGo (came_from : List (Int × Int)) :
    Nat → Int → List Int → List Int
  | 0, cur, acc => acc ++ [cur]
  | fuel + 1, cur, acc =>
      match dget? came_from cur with
      | none => acc ++ [cur]
      | some nxt => reconstructGo came_from fuel nxt (acc ++ [cur])

/-- Polyline concatenation dropping a duplicated join point within 1e-6°. -/
noncomputable def appendSegment (geometry segment : List (ℝ × ℝ)) :
    List (ℝ × ℝ) :=
  if geometry.isEmpty then geometry ++ segment
  else
    match geometry.getLast?, segment with
    | some last_p, first_p :: _ =>
        if |last_p.1 - first_p.1| < 1e-6 ∧ |last_p.2 - first_p.2| < 1e-6 then
          geometry ++ segment.drop 1
        else geometry ++ segment
    | _, _ => geometry ++ segment

/-- Per-pair body of the geometry loop of `_reconstruct_path_with_geometry`:
missing or mismatched predecessor edges fall back to raw node coordinates
without accumulating distance; otherwise the edge polyline is appended in the
traversal direction and length and travel time are accumulated. -/
noncomputable def reconstructStep (graph : LightGraph)
    (came_from_edge : List (Int × GraphEdge))
    (acc : List (ℝ × ℝ) × ℝ × ℝ) (p : Int × Int) : List (ℝ × ℝ) × ℝ × ℝ :=
  let from_node_id := p.1
  let to_node_id := p.2
  let geometry := acc.1
  let total_dist := acc.2.1
  let total_dur := acc.2.2
  let fallback : List (ℝ × ℝ) × ℝ × ℝ :=
    match graph.get_node from_node_id, graph.get_node to_node_id with
    | some fn, some tn =>
        let geometry2 := if geometry.isEmpty then geometry ++ [(fn.lon, fn.lat)] else geometry
        (geometry2 ++ [(tn.lon, tn.lat)], total_dist, total_dur)
    | _, _ => (geometry, total_dist, total_dur)
  match dget? came_from_edge to_node_id with
  | none => fallback
  | some edge =>
      if edge.from_node ≠ from_node_id ∧ edge.to_node ≠ from_node_id then fallback
      else
        let seg? : Option (List (ℝ × ℝ)) :=
          if edge.from_node = from_node_id then
            if 2 ≤ edge.geometry.length then some edge.geometry
            else
              match graph.get_node from_node_id, graph.get_node to_node_id with
              | some fn, some tn => some [(fn.lon, fn.lat), (tn.lon, tn.lat)]
              | _, _ => none
          else
            if 2 ≤ edge.geometry.length then some edge.geometry.reverse
            else
              match graph.get_node from_node_id, graph.get_node to_node_id with
              | some fn, some tn => some [(fn.lon, fn.lat), (tn.lon, tn.lat)]
              | _, _ => none
        match seg? with
        | none => (geometry, total_dist, total_dur)
        | some segment =>
            (appendSegment geometry segment, total_dist + edge.length,
              total_dur + edge.travel_time)

/-- Path and geometry reconstruction (`_reconstruct_path_with_geometry`). -/
noncomputable def reconstruct_path_with_geometry (came_from : List (Int × Int))
    (came_from_edge : List (Int × GraphEdge)) (end_id : Int)
    (graph : LightGraph) : List Int × List (ℝ × ℝ) × ℝ × ℝ :=
  let path := (reconstructGo came_from (came_from.length + 1) end_id []).reverse
  if path.length < 2 then (path, [], 0, 0)
  else
    let r := (adjacentPairs path).foldl (reconstructStep graph came_from_edge) ([], 0, 0)
    (path, r.1, r.2.1, r.2.2)

/-- Lexicographic order on heap entries, as Python compares the
`(f, counter, node)` tuples. -/
noncomputable def tripleLt (a b : ℝ × Nat × Int) : Prop :=
  a.1 < b.1 ∨ (a.1 = b.1 ∧ (a.2.1 < b.2.1 ∨ (a.2.1 = b.2.1 ∧ a.2.2 < b.2.2)))

noncomputable instance (a b : ℝ × Nat × Int) : Decidable (tripleLt a b) := by
  unfold tripleLt
  infer_instance

/-- Least entry of `a :: l` (first among equals; counters make ties
impossible). -/
noncomputable def heapMin (l : List (ℝ × Nat × Int)) (a : ℝ × Nat × Int) :
    ℝ × Nat × Int :=
  l.foldl (fun best x => if tripleLt x best then x else best) a

/-- Remove the first occurrence of an entry. -/
noncomputable def removeFirst : List (ℝ × Nat × Int) → (ℝ × Nat × Int) →
    List (ℝ × Nat × Int)
  | [], _ => []
  | y :: rest, x => if y = x then rest else y :: removeFirst rest x

/-- Heap pop (`heapq.heappop`): remove and return the least entry. -/
noncomputable def popMin (l : List (ℝ × Nat × Int)) :
    Option ((ℝ × Nat × Int) × List (ℝ × Nat × Int)) :=
  match l with
  | [] => none
  | a :: rest =>
      let m := heapMin rest a
      some (m, removeFirst (a :: rest) m)

/-- Mutable loop state of `astar_search`. -/
structure AStarState where
  open_set : List (ℝ × Nat × Int)
  came_from : List (Int × Int)
  came_from_edge : List (Int × GraphEdge)
  g_score : List (Int × ℝ)
  open_set_hash : List Int
  closed_set : List Int
  counter : Nat
  nodes_visited : Nat

/-- Body of the neighbor loop of `astar_search`: skip closed or blocked
neighbors, apply the penalty multiplier, and on improvement update the
predecessor maps and `g_score`; a heap entry is pushed only when the neighbor
is not already in `open_set_hash`.  A neighbor id absent from the node table
(which would raise in the source) updates the maps but pushes nothing. -/
noncomputable def relaxNeighbor (graph : LightGraph) (end_node : GraphNode)
    (weather : String) (penalty_map : List ((Int × Int) × ℝ))
    (blocked_edges : List (Int × Int)) (current : Int) (current_g : ℝ)
    (st : AStarState) (q : Int × GraphEdge) : AStarState :=
  let neighbor_id := q.1
  let edge := q.2
  if neighbor_id ∈ st.closed_set then st
  else if (current, neighbor_id) ∈ blocked_edges then st
  else
    let weight :=
      match dget? penalty_map (current, neighbor_id) with
      | some m => edge.get_weight weather * m
      | none => edge.get_weight weather
    let tentative_g := current_g + weight
    let doUpdate : Unit → AStarState := fun _ =>
      let st1 := { st with
        came_from := dset st.came_from neighbor_id current,
        came_from_edge := dset st.came_from_edge neighbor_id edge,
        g_score := dset st.g_score neighbor_id tentative_g }
      match graph.get_node neighbor_id with
      | some neighbor_node =>
          let f := tentative_g + heuristic neighbor_node end_node
          if neighbor_id ∈ st1.open_set_hash then st1
          else { st1 with
            open_set := st1.open_set ++ [(f, st1.counter + 1, neighbor_id)],
            counter := st1.counter + 1,
            open_set_hash := sinsert st1.open_set_hash neighbor_id }
      | none => st1
    match dget? st.g_score neighbor_id with
    | some gv => if tentative_g < gv then doUpdate () else st
    | none => doUpdate ()

/-- One iteration of the `while open_set` loop of `astar_search`: either a
final `PathResult` or the successor state. -/
noncomputable def astarStep (graph : LightGraph) (end_id : Int)
    (end_node : GraphNode) (weather : String)
    (penalty_map : List ((Int × Int) × ℝ)) (blocked_edges : List (Int × Int))
    (st : AStarState) : PathResult ⊕ AStarState :=
  match popMin st.open_set with
  | none =>
      Sum.inl { success := false, error := some "Không tìm thấy đường đi",
                stats := some ⟨st.nodes_visited, none, none, none⟩ }
  | some (entry, rest) =>
      let current := entry.2.2
      if current ∈ st.closed_set then Sum.inr { st with open_set := rest }
      else
        let st1 := { st with
          open_set := rest,
          open_set_hash := serase st.open_set_hash current,
          nodes_visited := st.nodes_visited + 1 }
        if current = end_id then
          let r := reconstruct_path_with_geometry st1.came_from st1.came_from_edge
            end_id graph
          Sum.inl { success := true, path := some r.1, distance := r.2.2.1,
                    duration := r.2.2.2, geometry := some r.2.1,
                    stats := some ⟨st1.nodes_visited, some r.1.length,
                      some "astar_optimized", some weather⟩ }
        else
          let st2 := { st1 with closed_set := sinsert st1.closed_set current }
          let current_g := dgetD st2.g_score current 0
          Sum.inr ((graph.get_neighbors current).foldl
            (relaxNeighbor graph end_node weather penalty_map blocked_edges
              current current_g) st2)

/-- Fuelled `while open_set` loop. -/
noncomputable def astarLoop (graph : LightGraph) (end_id : Int)
    (end_node : GraphNode) (weather : String)
    (penalty_map : List ((Int × Int) × ℝ)) (blocked_edges : List (Int × Int)) :
    Nat → AStarState → Option PathResult
  | 0, _ => none
  | fuel + 1, st =>
      match astarStep graph end_id end_node weather penalty_map blocked_edges st with
      | Sum.inl r => some r
      | Sum.inr st2 => astarLoop graph end_id end_node weather penalty_map
          blocked_edges fuel st2

/-- One-directional A* search (`astar_search`).  Returns `none` only on fuel
exhaustion, which no terminating source run reaches. -/
noncomputable def astar_search (graph : LightGraph) (start_id end_id : Int)
    (weather : String) (penalty_map : List ((Int × Int) × ℝ))
    (blocked_edges : List (Int × Int)) : Option PathResult :=
  if ¬ (graph.has_node start_id = true) ∨ ¬ (graph.has_node end_id = true) then
    some { success := false, error := some "Start hoặc end node không tồn tại" }
  else
    match graph.get_node end_id with
    | some end_node =>
        astarLoop graph end_id end_node weather penalty_map blocked_edges
          (graph.node_count + 3)
          { open_set := [(0.0, 0, start_id)],
            came_from := [],
            came_from_edge := [],
            g_score := [(start_id, 0.0)],
            open_set_hash := [start_id],
            closed_set := [],
            counter := 0,
            nodes_visited := 0 }
    | none => none

/-- Deprecated bidirectional entry point (`bidirectional_astar`): redirects to
`astar_search` for backward compatibility. -/
noncomputable def bidirectional_astar (graph : LightGraph) (start_id end_id : Int)
    (weather : String) (penalty_map : List ((Int × Int) × ℝ))
    (blocked_edges : List (Int × Int)) : Option PathResult :=
  astar_search graph start_id end_id weather penalty_map blocked_edges

/-! ## Claims C9 and C2 -/

/-- Claim C9: the deprecated `bidirectional_astar` entry point returns exactly
the same `PathResult` as `astar_search` on every input: the source redirects
to `astar_search` unconditionally. -/
theorem c9_bidirectional_eq_astar :
    ∀ (graph : LightGraph) (start_id end_id : Int) (weather : String)
      (penalty_map : List ((Int × Int) × ℝ)) (blocked_edges : List (Int × Int)),
      bidirectional_astar graph start_id end_id weather penalty_map blocked_edges =
        astar_search graph start_id end_id weather penalty_map blocked_edges :=
  fun _ _ _ _ _ _ => rfl

theorem astarStep_inl_error (graph : LightGraph) (end_id : Int)
    (end_node : GraphNode) (weather : String)
    (penalty_map : List ((Int × Int) × ℝ)) (blocked_edges : List (Int × Int))
    (st : AStarState) (r : PathResult)
    (h : astarStep graph end_id end_node weather penalty_map blocked_edges st =
      Sum.inl r) :
    r.error = none ∨ r.error = some "Không tìm thấy đường đi" := by
  unfold astarStep at h
  cases hpop : popMin st.open_set with
  | none =>
      rw [hpop] at h
      cases h
      exact Or.inr rfl
  | some pr =>
      obtain ⟨entry, rest⟩ := pr
      rw [hpop] at h
      simp only at h
      split_ifs at h with h1 h2 ; (cases h; exact Or.inl rfl)

theorem astarLoop_error (graph : LightGraph) (end_id : Int)
    (end_node : GraphNode) (weather : String)
    (penalty_map : List ((Int × Int) × ℝ)) (blocked_edges : List (Int × Int)) :
    ∀ (fuel : Nat) (st : AStarState) (r : PathResult),
      astarLoop graph end_id end_node weather penalty_map blocked_edges fuel st =
        some r →
      r.error = none ∨ r.error = some "Không tìm thấy đường đi" := by
  intro fuel
  induction fuel with
  | zero =>
      intro st r h
      exact absurd h (by simp [astarLoop])
  | succ n ih =>
      intro st r h
      rw [astarLoop] at h
      cases hstep : astarStep graph end_id end_node weather penalty_map
          blocked_edges st with
      | inl r2 =>
          rw [hstep] at h
          cases h
          exact astarStep_inl_error graph end_id end_node weather penalty_map
            blocked_edges st r hstep
      | inr st2 =>
          rw [hstep] at h
          exact ih st2 r h

/-- Claim C2 supporting theorem: `astar_search` has no time budget and no
timeout outcome.  Every result it returns is a success (`error = none`), a
no-path failure, or an unknown-endpoint failure; no run produces a `Timeout`
result, and the signature accepts no deadline. -/
theorem c2_astar_never_timeout :
    ∀ (graph : LightGraph) (start_id end_id : Int) (weather : String)
      (penalty_map : List ((Int × Int) × ℝ)) (blocked_edges : List (Int × Int))
      (r : PathResult),
      astar_search graph start_id end_id weather penalty_map blocked_edges =
        some r →
      r.error = none ∨ r.error = some "Không tìm thấy đường đi" ∨
        r.error = some "Start hoặc end node không tồn tại" := by
  intro graph start_id end_id weather penalty_map blocked_edges r h
  unfold astar_search at h
  split_ifs at h with h1
  · cases h
    exact Or.inr (Or.inr rfl)
  · cases hge : graph.get_node end_id with
    | none => rw [hge] at h; cases h
    | some end_node =>
        rw [hge] at h
        rcases astarLoop_error graph end_id end_node weather penalty_map
          blocked_edges _ _ r h with h2 | h2
        · exact Or.inl h2
        · exact Or.inr (Or.inl h2)

/-- Witness for C2: on the empty graph the search returns the
unknown-endpoint failure, which is one of the three permitted outcomes. -/
theorem c2_astar_never_timeout_witness :
    astar_search LightGraph.empty 1 2 "normal" [] [] =
      some { success := false, error := some "Start hoặc end node không tồn tại" } ∧
    (({ success := false, error := some "Start hoặc end node không tồn tại" } :
        PathResult).error = none ∨
      ({ success := false, error := some "Start hoặc end node không tồn tại" } :
        PathResult).error = some "Không tìm thấy đường đi" ∨
      ({ success := false, error := some "Start hoặc end node không tồn tại" } :
        PathResult).error = some "Start hoặc end node không tồn tại") :=
  ⟨rfl, c2_astar_never_timeout LightGraph.empty 1 2 "normal" [] [] _ rfl⟩

/-! ## Claim C5: the relax step of `astar_search` -/

theorem haversine_zero : haversine_distance 0 0 0 0 = 0 := by
  norm_num [haversine_distance, radians, atan2, Real.sin_zero, Real.cos_zero,
    Real.sqrt_zero, Real.sqrt_one, Real.arctan_zero]

theorem heuristic_zero (i j : Int) :
    heuristic ⟨i, 0, 0⟩ ⟨j, 0, 0⟩ = 0 := by
  unfold heuristic
  rw [haversine_zero]
  ring

/-- Concrete edges of the three-node counterexample graph: a direct expensive
edge 1→2 and a cheap detour 1→3→2. -/
noncomputable def e12 : GraphEdge := ⟨1, 2, 7, 10, "secondary", "", 50, 1.0, []⟩

/-- Cheap first leg of the detour. -/
noncomputable def e13 : GraphEdge := ⟨1, 3, 7, 1, "secondary", "", 50, 1.0, []⟩

/-- Cheap second leg of the detour. -/
noncomputable def e32 : GraphEdge := ⟨3, 2, 7, 1, "secondary", "", 50, 1.0, []⟩

/-- Three-node graph on which the second expansion improves `g(2)` while node
2 is still in the open set. -/
noncomputable def G5 : LightGraph :=
  ((((([1, 2, 3] : List Int).map fun i => (⟨i, 0, 0⟩ : GraphNode)).foldl
      LightGraph.add_node LightGraph.empty).add_edge e12).add_edge e13).add_edge e32

/-- Initial A* state for the query 1 → 2 on `G5`. -/
noncomputable def c5init : AStarState :=
  ⟨[(0.0, 0, 1)], [], [], [(1, 0.0)], [1], [], 0, 0⟩

/-- State after expanding node 1: both neighbors pushed. -/
noncomputable def c5st1 : AStarState :=
  ⟨[(10, 1, 2), (1, 2, 3)], [(2, 1), (3, 1)], [(2, e12), (3, e13)],
   [(1, 0.0), (2, 10), (3, 1)], [2, 3], [1], 2, 1⟩

/-- State after expanding node 3: `g(2)` improved from 10 to 2 and the
predecessor maps switched to the detour, yet the frontier still holds only
the stale entry `(10, 1, 2)` and the counter is unchanged — no new heap entry
was pushed because node 2 was already in `open_set_hash`. -/
noncomputable def c5st2 : AStarState :=
  ⟨[(10, 1, 2)], [(2, 3), (3, 1)], [(2, e32), (3, e13)],
   [(1, 0.0), (2, 2), (3, 1)], [2], [1, 3], 2, 2⟩

theorem c5_step1 : astarStep G5 2 ⟨2, 0, 0⟩ "normal" [] [] c5init = Sum.inr c5st1 := by
  norm_num [astarStep, popMin, heapMin, removeFirst, relaxNeighbor, c5init, c5st1,
    G5, e12, e13, e32, LightGraph.get_neighbors, LightGraph.get_node,
    LightGraph.add_node, LightGraph.add_edge, LightGraph.empty, dgetD, dget?,
    dset, dcontains, dmodify, sinsert, serase, heuristic_zero,
    GraphEdge.get_weight, C_CONTEXT, C_CONTEXT_normal, C_HIGHWAY, tripleLt]

theorem c5_step2 : astarStep G5 2 ⟨2, 0, 0⟩ "normal" [] [] c5st1 = Sum.inr c5st2 := by
  norm_num [astarStep, popMin, heapMin, removeFirst, relaxNeighbor, c5st1, c5st2,
    G5, e12, e13, e32, LightGraph.get_neighbors, LightGraph.get_node,
    LightGraph.add_node, LightGraph.add_edge, LightGraph.empty, dgetD, dget?,
    dset, dcontains, dmodify, sinsert, serase, heuristic_zero,
    GraphEdge.get_weight, C_CONTEXT, C_CONTEXT_normal, C_HIGHWAY, tripleLt]

/-- Counterexample for C5 as stated: on `G5`, the expansion of node 3 (the
second loop iteration, reached from the canonical initial state of the query
1 → 2) improves `g(2)` from 10 to 2 and updates both predecessor maps, yet it
pushes no heap entry: the frontier keeps only the stale entry `(10, 1, 2)`
and the push counter stays at 2, because node 2 is still in `open_set_hash`. -/
theorem c5_no_push_when_in_open_counterexample :
    astarStep G5 2 ⟨2, 0, 0⟩ "normal" [] [] c5init = Sum.inr c5st1 ∧
    astarStep G5 2 ⟨2, 0, 0⟩ "normal" [] [] c5st1 = Sum.inr c5st2 ∧
    dget? c5st1.g_score 2 = some 10 ∧
    dget? c5st2.g_score 2 = some 2 ∧
    dget? c5st2.came_from 2 = some 3 ∧
    dget? c5st2.came_from_edge 2 = some e32 ∧
    c5st2.open_set = [(10, 1, 2)] ∧
    c5st2.counter = c5st1.counter :=
  ⟨c5_step1, c5_step2, rfl, rfl, rfl, rfl, rfl, rfl⟩

/-- Claim C5 (amended): for a non-closed, non-blocked outgoing edge to `v`,
when the tentative cost improves `g(v)` the relax step updates the
predecessor map, the predecessor-edge map, and `g(v)`; it pushes the entry
`(g' + h(v), counter + 1, v)` onto the frontier only when `v` is not already
in `open_set_hash`, and otherwise leaves the frontier, the counter, and the
hash untouched.  When the tentative cost does not improve `g(v)`, the state
is unchanged. -/
theorem c5_relax_spec (graph : LightGraph) (end_node : GraphNode)
    (weather : String) (penalty_map : List ((Int × Int) × ℝ))
    (blocked_edges : List (Int × Int)) (current : Int) (current_g : ℝ)
    (st : AStarState) (q : Int × GraphEdge) (neighbor_node : GraphNode)
    (hclosed : q.1 ∉ st.closed_set)
    (hblocked : (current, q.1) ∉ blocked_edges)
    (hnode : graph.get_node q.1 = some neighbor_node) :
    (∀ gv, dget? st.g_score q.1 = some gv →
      ¬ current_g + (match dget? penalty_map (current, q.1) with
          | some m => q.2.get_weight weather * m
          | none => q.2.get_weight weather) < gv →
      relaxNeighbor graph end_node weather penalty_map blocked_edges current
        current_g st q = st) ∧
    ((dget? st.g_score q.1 = none ∨
      ∃ gv, dget? st.g_score q.1 = some gv ∧
        current_g + (match dget? penalty_map (current, q.1) with
          | some m => q.2.get_weight weather * m
          | none => q.2.get_weight weather) < gv) →
      (relaxNeighbor graph end_node weather penalty_map blocked_edges current
          current_g st q).came_from = dset st.came_from q.1 current ∧
      (relaxNeighbor graph end_node weather penalty_map blocked_edges current
          current_g st q).came_from_edge = dset st.came_from_edge q.1 q.2 ∧
      (relaxNeighbor graph end_node weather penalty_map blocked_edges current
          current_g st q).g_score = dset st.g_score q.1
        (current_g + (match dget? penalty_map (current, q.1) with
          | some m => q.2.get_weight weather * m
          | none => q.2.get_weight weather)) ∧
      (q.1 ∈ st.open_set_hash →
        (relaxNeighbor graph end_node weather penalty_map blocked_edges current
            current_g st q).open_set = st.open_set ∧
        (relaxNeighbor graph end_node weather penalty_map blocked_edges current
            current_g st q).counter = st.counter ∧
        (relaxNeighbor graph end_node weather penalty_map blocked_edges current
            current_g st q).open_set_hash = st.open_set_hash) ∧
      (q.1 ∉ st.open_set_hash →
        (relaxNeighbor graph end_node weather penalty_map blocked_edges current
            current_g st q).open_set = st.open_set ++
          [(current_g + (match dget? penalty_map (current, q.1) with
              | some m => q.2.get_weight weather * m
              | none => q.2.get_weight weather) +
            heuristic neighbor_node end_node, st.counter + 1, q.1)] ∧
        (relaxNeighbor graph end_node weather penalty_map blocked_edges current
            current_g st q).counter = st.counter + 1 ∧
        (relaxNeighbor graph end_node weather penalty_map blocked_edges current
            current_g st q).open_set_hash = sinsert st.open_set_hash q.1)) := by
  unfold relaxNeighbor
  rw [if_neg hclosed, if_neg hblocked]
  simp only [hnode]
  constructor
  · intro gv hgv hnlt
    rw [hgv]
    simp only
    rw [if_neg hnlt]
  · intro himp
    rcases himp with hnone | ⟨gv, hgv, hlt⟩
    · rw [hnone]
      simp only
      by_cases hhash : q.1 ∈ st.open_set_hash
      · rw [if_pos hhash]
        refine ⟨rfl, rfl, rfl, fun _ => ⟨rfl, rfl, rfl⟩, fun hc => absurd hhash hc⟩
      · rw [if_neg hhash]
        exact ⟨rfl, rfl, rfl, fun hc => absurd hc hhash,
          fun _ => ⟨rfl, rfl, rfl⟩⟩
    · rw [hgv]
      simp only
      rw [if_pos hlt]
      by_cases hhash : q.1 ∈ st.open_set_hash
      · rw [if_pos hhash]
        refine ⟨rfl, rfl, rfl, fun _ => ⟨rfl, rfl, rfl⟩, fun hc => absurd hhash hc⟩
      · rw [if_neg hhash]
        exact ⟨rfl, rfl, rfl, fun hc => absurd hc hhash,
          fun _ => ⟨rfl, rfl, rfl⟩⟩

/-- Witness for C5 at the first relax of the `G5` run: node 2 is not yet in
the open-set hash, so the entry is pushed. -/
theorem c5_relax_spec_witness :
    ((2 : Int) ∉ c5init.closed_set) ∧
    (((1 : Int), (2 : Int)) ∉ ([] : List (Int × Int))) ∧
    G5.get_node 2 = some ⟨2, 0, 0⟩ ∧
    dget? c5init.g_score 2 = none ∧
    (relaxNeighbor G5 ⟨2, 0, 0⟩ "normal" [] [] 1 0 c5init (2, e12)).came_from =
      dset c5init.came_from 2 1 ∧
    (relaxNeighbor G5 ⟨2, 0, 0⟩ "normal" [] [] 1 0 c5init (2, e12)).g_score =
      dset c5init.g_score 2
        (0 + (match dget? ([] : List ((Int × Int) × ℝ)) ((1 : Int), (2 : Int)) with
          | some m => e12.get_weight "normal" * m
          | none => e12.get_weight "normal")) := by
  have h1 : (2 : Int) ∉ c5init.closed_set := by simp [c5init]
  have h2 : ((1 : Int), (2 : Int)) ∉ ([] : List (Int × Int)) := by simp
  have h3 : G5.get_node 2 = some ⟨2, 0, 0⟩ := by rfl
  have h4 : dget? c5init.g_score 2 = none := by rfl
  have h := (c5_relax_spec G5 ⟨2, 0, 0⟩ "normal" [] [] 1 0 c5init (2, e12)
    ⟨2, 0, 0⟩ h1 h2 h3).2 (Or.inl h4)
  exact ⟨h1, h2, h3, h4, h.1, h.2.2.1⟩

/-! ## Obstruction resolver (`fast_pathfinding_service.py`, lines 632–692)

Modelled from the spec: `LightGraph.build_strtree` and
`LightGraph.query_edges_in_geometry` are called by
`FastRoutingService.find_affected_edges_fast` but are defined nowhere in the
repository.  Following §4.4 and §2 of the specification (STRtree over edge
polylines, bounding-box candidates refined by precise intersection), the
geometric primitive is modelled as an abstract query function from a feature
geometry to the keys of the directed edges it intersects.  The GeoJSON
property dictionary is modelled by its two read fields (`blockType` and
`penalty`, the latter assumed numeric when present, as the source would raise
otherwise and skip the feature). -/

/-- GeoJSON feature over an abstract geometry type. -/
structure Feature (G : Type) where
  geom : G
  blockType : Option String
  penalty : Option ℝ

/-- Per-edge-key body of `find_affected_edges_fast`: flood features with
penalty ≥ 100 hard-block the edge and drop its penalty entry; flood features
with a smaller penalty record `max(existing, penalty)` (existing defaulting
to 1.0); every other feature hard-blocks the edge and leaves the penalty map
untouched. -/
noncomputable def applyEdgeKey (block_type : String) (penalty : Option ℝ)
    (acc : List (Int × Int) × List ((Int × Int) × ℝ)) (edge_key : Int × Int) :
    List (Int × Int) × List ((Int × Int) × ℝ) :=
  if block_type = "flood" then
    match penalty with
    | some p =>
        if p ≥ 100.0 then (sinsert acc.1 edge_key, derase acc.2 edge_key)
        else (acc.1, dset acc.2 edge_key (max (dgetD acc.2 edge_key 1.0) p))
    | none => (sinsert acc.1 edge_key, acc.2)
  else (sinsert acc.1 edge_key, acc.2)

/-- Per-feature body of `find_affected_edges_fast`: read `blockType` (default
`"block"`) and `penalty` (default 5.0 for flood features, absent otherwise),
then process every intersecting edge key. -/
noncomputable def processFeature {G : Type} (query : G → List (Int × Int))
    (acc : List (Int × Int) × List ((Int × Int) × ℝ)) (f : Feature G) :
    List (Int × Int) × List ((Int × Int) × ℝ) :=
  let block_type := f.blockType.getD "block"
  let penalty : Option ℝ :=
    match f.penalty with
    | some p => some p
    | none => if block_type = "flood" then some 5.0 else none
  (query f.geom).foldl (applyEdgeKey block_type penalty) acc

/-- Obstruction resolver (`FastRoutingService.find_affected_edges_fast`):
returns `(blocked_edges, penalty_map)`. -/
noncomputable def find_affected_edges_fast {G : Type} (graph : Option LightGraph)
    (query : G → List (Int × Int)) (geometries : List (Feature G)) :
    List (Int × Int) × List ((Int × Int) × ℝ) :=
  if geometries.isEmpty ∨ graph.isNone then ([], [])
  else geometries.foldl (processFeature query) ([], [])

/-- Counterexample for C1 as stated: a flood feature with penalty 3 followed
by a plain blocking feature on the same edge leaves the penalty entry in
place — hard-blocking by a non-flood feature does not remove the prior
penalty entry. -/
theorem c1_block_keeps_penalty_counterexample :
    find_affected_edges_fast (some LightGraph.empty) (fun _ : Unit => [(1, 2)])
      [⟨(), some "flood", some 3⟩, ⟨(), none, none⟩] =
      ([(1, 2)], [((1, 2), 3)]) ∧
    (1, 2) ∈ (find_affected_edges_fast (some LightGraph.empty)
      (fun _ : Unit => [(1, 2)])
      [⟨(), some "flood", some 3⟩, ⟨(), none, none⟩]).1 ∧
    dget? (find_affected_edges_fast (some LightGraph.empty)
      (fun _ : Unit => [(1, 2)])
      [⟨(), some "flood", some 3⟩, ⟨(), none, none⟩]).2 (1, 2) = some 3 := by
  have h : find_affected_edges_fast (some LightGraph.empty)
      (fun _ : Unit => [(1, 2)])
      [⟨(), some "flood", some 3⟩, ⟨(), none, none⟩] =
      ([(1, 2)], [((1, 2), 3)]) := by
    norm_num [find_affected_edges_fast, processFeature, applyEdgeKey, sinsert,
      derase, dset, dgetD, dget?]
    exact fun h => absurd h (by decide)
  refine ⟨h, ?_, ?_⟩
  · rw [h]; exact List.mem_singleton.mpr rfl
  · rw [h]; rfl

/-- Claim C1 (amended): with a loaded graph and a non-empty feature list,
`find_affected_edges_fast` folds the features over `(∅, ∅)`; each feature
processes exactly the edge keys its geometry intersects; a flood feature with
penalty ≥ 100 hard-blocks the edge and removes any prior penalty entry; a
flood feature with penalty < 100 records `max(existing, penalty)` with 1.0 as
the default prior and 5.0 as the default flood penalty when absent; every
non-flood feature hard-blocks its edges but leaves prior penalty entries in
place. -/
theorem c1_find_affected_edges_fast_spec {G : Type} :
    (∀ (graph : LightGraph) (query : G → List (Int × Int))
        (feats : List (Feature G)), feats ≠ [] →
      find_affected_edges_fast (some graph) query feats =
        feats.foldl (processFeature query) ([], [])) ∧
    (∀ (query : G → List (Int × Int)) (f : Feature G) acc,
        f.blockType = some "flood" → f.penalty = none →
      processFeature query acc f =
        (query f.geom).foldl (applyEdgeKey "flood" (some 5.0)) acc) ∧
    (∀ (p : ℝ) acc edge_key, p ≥ 100.0 →
      applyEdgeKey "flood" (some p) acc edge_key =
        (sinsert acc.1 edge_key, derase acc.2 edge_key)) ∧
    (∀ (p : ℝ) acc edge_key, ¬ p ≥ 100.0 →
      applyEdgeKey "flood" (some p) acc edge_key =
        (acc.1, dset acc.2 edge_key (max (dgetD acc.2 edge_key 1.0) p))) ∧
    (∀ (bt : String) (penalty : Option ℝ) acc edge_key, bt ≠ "flood" →
      applyEdgeKey bt penalty acc edge_key = (sinsert acc.1 edge_key, acc.2)) := by
  refine ⟨?_, ?_, ?_, ?_, ?_⟩
  · intro graph query feats hne
    unfold find_affected_edges_fast
    rw [if_neg]
    simp [List.isEmpty_iff, hne]
  · intro query f acc hbt hpen
    unfold processFeature
    rw [hbt, hpen]
    rfl
  · intro p acc edge_key hp
    unfold applyEdgeKey
    rw [if_pos rfl]
    simp only
    rw [if_pos hp]
  · intro p acc edge_key hp
    unfold applyEdgeKey
    rw [if_pos rfl]
    simp only
    rw [if_neg hp]
  · intro bt penalty acc edge_key hbt
    unfold applyEdgeKey
    rw [if_neg hbt]

/-- Witness for C1 at concrete features: one flood feature with penalty 150
(hard-block removing the prior entry) and the amended no-removal behavior of
a plain block. -/
theorem c1_find_affected_edges_fast_spec_witness :
    ([⟨(), some "flood", some 150⟩] : List (Feature Unit)) ≠ [] ∧
    find_affected_edges_fast (some LightGraph.empty) (fun _ : Unit => [(1, 2)])
      [⟨(), some "flood", some 150⟩] =
      List.foldl (processFeature fun _ : Unit => [(1, 2)]) ([], [])
        [⟨(), some "flood", some 150⟩] ∧
    (150 : ℝ) ≥ 100.0 ∧
    applyEdgeKey "flood" (some 150) ([], [((1, 2), 3)]) (1, 2) =
      (sinsert ([] : List (Int × Int)) (1, 2),
        derase ([((1, 2), 3)] : List ((Int × Int) × ℝ)) (1, 2)) ∧
    ("block" : String) ≠ "flood" ∧
    applyEdgeKey "block" none ([], [((1, 2), 3)]) (1, 2) =
      (sinsert ([] : List (Int × Int)) (1, 2), [((1, 2), 3)]) := by
  refine ⟨by simp, ?_, by norm_num, ?_, by decide, ?_⟩
  · exact (@c1_find_affected_edges_fast_spec Unit).1 LightGraph.empty _ _ (by simp)
  · exact (@c1_find_affected_edges_fast_spec Unit).2.2.1 150 ([], [((1, 2), 3)]) (1, 2)
      (by norm_num)
  · exact (@c1_find_affected_edges_fast_spec Unit).2.2.2.2 "block" none
      ([], [((1, 2), 3)]) (1, 2) (by decide)

/-! ## Claim C4: heuristic admissibility

The analytic core: the haversine formula computes `R` times the central angle
between the unit direction vectors of its two inputs, the central angle obeys
the spherical triangle inequality (proved below from the Cauchy–Schwarz
inequality in `EuclideanSpace ℝ (Fin 3)`), and every class/weather
coefficient product is at least 0.7. -/

theorem atan2_nonneg {y x : ℝ} (hy : 0 ≤ y) : 0 ≤ atan2 y x := by
  unfold atan2
  split_ifs with h1 h2 h3 h4 <;>
    first
      | exact (Real.arctan_strictMono.monotone (div_nonneg hy (le_of_lt h1))).trans_eq'
          Real.arctan_zero.symm
      | (have ha := Real.neg_pi_div_two_lt_arctan (y / x)
         have hπ := Real.pi_pos
         linarith)

theorem haversine_nonneg (lat1 lon1 lat2 lon2 : ℝ) :
    0 ≤ haversine_distance lat1 lon1 lat2 lon2 := by
  unfold haversine_distance
  have h := atan2_nonneg (x := Real.sqrt (1 -
    (Real.sin (radians (lat2 - lat1) / 2) ^ 2 +
      Real.cos (radians lat1) * Real.cos (radians lat2) *
        Real.sin (radians (lon2 - lon1) / 2) ^ 2)))
    (Real.sqrt_nonneg (Real.sin (radians (lat2 - lat1) / 2) ^ 2 +
      Real.cos (radians lat1) * Real.cos (radians lat2) *
        Real.sin (radians (lon2 - lon1) / 2) ^ 2))
  positivity

/-- Key half-angle bridge: for `a ∈ [0, 1]`,
`2 · atan2 (√a) (√(1 − a)) = arccos (1 − 2a)`. -/
theorem two_atan2_sqrt {a : ℝ} (h0 : 0 ≤ a) (h1 : a ≤ 1) :
    2 * atan2 (Real.sqrt a) (Real.sqrt (1 - a)) = Real.arccos (1 - 2 * a) := by
  by_cases ha : a < 1
  · have hx : 0 < Real.sqrt (1 - a) := Real.sqrt_pos.mpr (by linarith)
    unfold atan2
    rw [if_pos hx]
    have hθ0 : 0 ≤ Real.arccos (1 - 2 * a) := Real.arccos_nonneg _
    have hθπ : Real.arccos (1 - 2 * a) ≤ Real.pi := Real.arccos_le_pi _
    have hcos : Real.cos (Real.arccos (1 - 2 * a)) = 1 - 2 * a :=
      Real.cos_arccos (by linarith) (by linarith)
    have hθltπ : Real.arccos (1 - 2 * a) < Real.pi := by
      rcases lt_or_eq_of_le hθπ with h | h
      · exact h
      · exfalso
        have := Real.arccos_eq_pi.mp h
        linarith
    have hs2 : Real.sin (Real.arccos (1 - 2 * a) / 2) ^ 2 = a := by
      rw [Real.sin_sq_eq_half_sub,
        show 2 * (Real.arccos (1 - 2 * a) / 2) = Real.arccos (1 - 2 * a) by ring,
        hcos]
      ring
    have hsnn : 0 ≤ Real.sin (Real.arccos (1 - 2 * a) / 2) := by
      apply Real.sin_nonneg_of_nonneg_of_le_pi
      · linarith
      · have := Real.pi_pos; linarith
    have hsin : Real.sqrt a = Real.sin (Real.arccos (1 - 2 * a) / 2) := by
      conv_lhs => rw [← hs2]
      exact Real.sqrt_sq hsnn
    have hc2 : Real.cos (Real.arccos (1 - 2 * a) / 2) ^ 2 = 1 - a := by
      rw [Real.cos_sq,
        show 2 * (Real.arccos (1 - 2 * a) / 2) = Real.arccos (1 - 2 * a) by ring,
        hcos]
      ring
    have hcnn : 0 ≤ Real.cos (Real.arccos (1 - 2 * a) / 2) := by
      apply Real.cos_nonneg_of_mem_Icc
      constructor
      · have := Real.pi_pos; linarith
      · linarith
    have hcoshalf : Real.sqrt (1 - a) = Real.cos (Real.arccos (1 - 2 * a) / 2) := by
      conv_lhs => rw [← hc2]
      exact Real.sqrt_sq hcnn
    have harctan : Real.arctan (Real.sqrt a / Real.sqrt (1 - a)) =
        Real.arccos (1 - 2 * a) / 2 := by
      rw [hsin, hcoshalf, ← Real.tan_eq_sin_div_cos]
      apply Real.arctan_tan
      · have := Real.pi_pos; linarith
      · linarith
    rw [harctan]
    ring
  · have ha1 : a = 1 := le_antisymm h1 (not_lt.mp ha)
    subst ha1
    unfold atan2
    rw [show (1 : ℝ) - 1 = 0 by ring, Real.sqrt_zero, Real.sqrt_one]
    rw [if_neg (lt_irrefl 0), if_neg (lt_irrefl 0), if_pos one_pos]
    rw [show (1 : ℝ) - 2 * 1 = -1 by ring, Real.arccos_neg_one]
    ring

/-- Symmetry of the haversine distance. -/
theorem hav_symm (lat1 lon1 lat2 lon2 : ℝ) :
    haversine_distance lat1 lon1 lat2 lon2 = haversine_distance lat2 lon2 lat1 lon1 := by
  have key : ∀ u v : ℝ, Real.sin ((v - u) * Real.pi / 180 / 2) ^ 2
      = Real.sin ((u - v) * Real.pi / 180 / 2) ^ 2 := by
    intro u v
    rw [show (v - u) * Real.pi / 180 / 2 = -((u - v) * Real.pi / 180 / 2) by ring,
      Real.sin_neg]
    ring
  simp only [haversine_distance, radians]
  rw [key lat1 lat2, key lon1 lon2,
    mul_comm (Real.cos (lat1 * Real.pi / 180)) (Real.cos (lat2 * Real.pi / 180))]

/-- Core identity: the half-angle haversine expression equals the arccos of the
spherical dot product, provided both cosines of latitude are nonnegative. -/
theorem hav_core (p1 p2 l1 l2 : ℝ) (hc1 : 0 ≤ Real.cos p1) (hc2 : 0 ≤ Real.cos p2) :
    2 * atan2
        (Real.sqrt (Real.sin ((p2 - p1) / 2) ^ 2 +
          Real.cos p1 * Real.cos p2 * Real.sin ((l2 - l1) / 2) ^ 2))
        (Real.sqrt (1 - (Real.sin ((p2 - p1) / 2) ^ 2 +
          Real.cos p1 * Real.cos p2 * Real.sin ((l2 - l1) / 2) ^ 2))) =
      Real.arccos (Real.cos p1 * Real.cos p2 * Real.cos (l2 - l1) +
        Real.sin p1 * Real.sin p2) := by
  set a := Real.sin ((p2 - p1) / 2) ^ 2 +
    Real.cos p1 * Real.cos p2 * Real.sin ((l2 - l1) / 2) ^ 2 with ha
  have hd : 1 - 2 * a = Real.cos p1 * Real.cos p2 * Real.cos (l2 - l1) +
      Real.sin p1 * Real.sin p2 := by
    rw [ha, Real.sin_sq_eq_half_sub, Real.sin_sq_eq_half_sub,
      show 2 * ((p2 - p1) / 2) = p2 - p1 by ring,
      show 2 * ((l2 - l1) / 2) = l2 - l1 by ring,
      Real.cos_sub p2 p1]
    ring
  have ha0 : 0 ≤ a := by
    rw [ha]
    have := mul_nonneg (mul_nonneg hc1 hc2) (sq_nonneg (Real.sin ((l2 - l1) / 2)))
    positivity
  have ha1 : a ≤ 1 := by
    have hcc : 0 ≤ Real.cos p1 * Real.cos p2 *
        (Real.cos (l2 - l1) + 1) := by
      apply mul_nonneg (mul_nonneg hc1 hc2)
      linarith [Real.neg_one_le_cos (l2 - l1)]
    have hadd := Real.cos_add p1 p2
    have hle := Real.cos_le_one (p1 + p2)
    nlinarith [hd]
  rw [two_atan2_sqrt ha0 ha1, hd]

/-- The haversine distance is the Earth radius times the central angle between
the two points, whenever both latitudes lie in [-90, 90]. -/
theorem haversine_eq_arccos (lat1 lon1 lat2 lon2 : ℝ)
    (h1 : |lat1| ≤ 90) (h2 : |lat2| ≤ 90) :
    haversine_distance lat1 lon1 lat2 lon2 =
      6371000 * Real.arccos (Real.cos (radians lat1) * Real.cos (radians lat2) *
        Real.cos (radians lon2 - radians lon1) +
        Real.sin (radians lat1) * Real.sin (radians lat2)) := by
  have hcos : ∀ t : ℝ, |t| ≤ 90 → 0 ≤ Real.cos (radians t) := by
    intro t ht
    rw [abs_le] at ht
    apply Real.cos_nonneg_of_mem_Icc
    constructor
    · unfold radians
      nlinarith [Real.pi_pos, mul_nonneg (by linarith : (0:ℝ) ≤ t + 90) Real.pi_pos.le]
    · unfold radians
      nlinarith [Real.pi_pos, mul_nonneg (by linarith : (0:ℝ) ≤ 90 - t) Real.pi_pos.le]
  have hkey := hav_core (radians lat1) (radians lat2) (radians lon1) (radians lon2)
    (hcos lat1 h1) (hcos lat2 h2)
  simp only [haversine_distance]
  rw [show radians (lat2 - lat1) = radians lat2 - radians lat1 by unfold radians; ring,
    show radians (lon2 - lon1) = radians lon2 - radians lon1 by unfold radians; ring]
  rw [mul_assoc, hkey]

open scoped RealInnerProductSpace

/-- Unit direction vector of a point on the sphere, by latitude and longitude
in radians. -/
noncomputable def sph (p l : ℝ) : EuclideanSpace ℝ (Fin 3) :=
  ![Real.cos p * Real.cos l, Real.cos p * Real.sin l, Real.sin p]

theorem inner_sph (p1 l1 p2 l2 : ℝ) :
    ⟪sph p1 l1, sph p2 l2⟫ =
      Real.cos p1 * Real.cos p2 * Real.cos (l2 - l1) +
        Real.sin p1 * Real.sin p2 := by
  simp [sph, PiLp.inner_apply, Fin.sum_univ_three, RCLike.inner_apply, conj_trivial,
    Matrix.cons_val_zero, Matrix.cons_val_one, Matrix.head_cons, Matrix.cons_val_two,
    Matrix.tail_cons, Real.cos_sub]
  ring

theorem norm_sph (p l : ℝ) : ‖sph p l‖ = 1 := by
  have h : ⟪sph p l, sph p l⟫ = 1 := by
    rw [inner_sph, sub_self, Real.cos_zero]
    nlinarith [Real.sin_sq_add_cos_sq p, Real.sin_sq_add_cos_sq l]
  rw [norm_eq_sqrt_real_inner, h, Real.sqrt_one]

theorem arccos_antitone {s t : ℝ} (h : s ≤ t) : Real.arccos t ≤ Real.arccos s := by
  unfold Real.arccos
  have := Real.monotone_arcsin h
  linarith

/-- Spherical triangle inequality for unit vectors of a real inner product
space, phrased through arccos of inner products. -/
theorem arccos_inner_triangle {E : Type} [NormedAddCommGroup E] [InnerProductSpace ℝ E]
    (x y z : E) (hx : ‖x‖ = 1) (hy : ‖y‖ = 1) (hz : ‖z‖ = 1) :
    Real.arccos ⟪x, z⟫ ≤ Real.arccos ⟪x, y⟫ + Real.arccos ⟪y, z⟫ := by
  by_cases hπ : Real.pi ≤ Real.arccos ⟪x, y⟫ + Real.arccos ⟪y, z⟫
  · exact le_trans (Real.arccos_le_pi _) hπ
  push_neg at hπ
  have haa : |⟪x, y⟫| ≤ 1 := by
    have := abs_real_inner_le_norm x y
    rw [hx, hy] at this
    simpa using this
  have hbb : |⟪y, z⟫| ≤ 1 := by
    have := abs_real_inner_le_norm y z
    rw [hy, hz] at this
    simpa using this
  have huu : ⟪x - ⟪x, y⟫ • y, x - ⟪x, y⟫ • y⟫ = 1 - ⟪x, y⟫ ^ 2 := by
    simp only [inner_sub_left, inner_sub_right, real_inner_smul_left, real_inner_smul_right,
      real_inner_self_eq_norm_sq, norm_smul, Real.norm_eq_abs, mul_pow, sq_abs, mul_one,
      one_pow, hx, hy, real_inner_comm y x]
    ring
  have hww : ⟪z - ⟪y, z⟫ • y, z - ⟪y, z⟫ • y⟫ = 1 - ⟪y, z⟫ ^ 2 := by
    simp only [inner_sub_left, inner_sub_right, real_inner_smul_left, real_inner_smul_right,
      real_inner_self_eq_norm_sq, norm_smul, Real.norm_eq_abs, mul_pow, sq_abs, mul_one,
      one_pow, hy, hz, real_inner_comm z y]
    ring
  have huw : ⟪x - ⟪x, y⟫ • y, z - ⟪y, z⟫ • y⟫ =
      ⟪x, z⟫ - ⟪x, y⟫ * ⟪y, z⟫ := by
    simp only [inner_sub_left, inner_sub_right, real_inner_smul_left, real_inner_smul_right,
      real_inner_self_eq_norm_sq, hy, real_inner_comm z y, real_inner_comm y x]
    ring
  have hun : ‖x - ⟪x, y⟫ • y‖ = Real.sqrt (1 - ⟪x, y⟫ ^ 2) := by
    have hsq : ‖x - ⟪x, y⟫ • y‖ ^ 2 = 1 - ⟪x, y⟫ ^ 2 := by
      rw [← real_inner_self_eq_norm_sq]
      exact huu
    rw [← hsq, Real.sqrt_sq (norm_nonneg _)]
  have hwn : ‖z - ⟪y, z⟫ • y‖ = Real.sqrt (1 - ⟪y, z⟫ ^ 2) := by
    have hsq : ‖z - ⟪y, z⟫ • y‖ ^ 2 = 1 - ⟪y, z⟫ ^ 2 := by
      rw [← real_inner_self_eq_norm_sq]
      exact hww
    rw [← hsq, Real.sqrt_sq (norm_nonneg _)]
  have hcs := abs_real_inner_le_norm (x - ⟪x, y⟫ • y) (z - ⟪y, z⟫ • y)
  rw [huw, hun, hwn] at hcs
  have hcs' : ⟪x, y⟫ * ⟪y, z⟫ -
      Real.sqrt (1 - ⟪x, y⟫ ^ 2) * Real.sqrt (1 - ⟪y, z⟫ ^ 2) ≤ ⟪x, z⟫ := by
    have := neg_abs_le (⟪x, z⟫ - ⟪x, y⟫ * ⟪y, z⟫)
    linarith [hcs]
  have hge : Real.cos (Real.arccos ⟪x, y⟫ + Real.arccos ⟪y, z⟫) ≤ ⟪x, z⟫ := by
    rw [Real.cos_add, Real.cos_arccos (abs_le.mp haa).1 (abs_le.mp haa).2,
      Real.cos_arccos (abs_le.mp hbb).1 (abs_le.mp hbb).2,
      Real.sin_arccos, Real.sin_arccos]
    exact hcs'
  have h0 : 0 ≤ Real.arccos ⟪x, y⟫ + Real.arccos ⟪y, z⟫ :=
    add_nonneg (Real.arccos_nonneg _) (Real.arccos_nonneg _)
  have := arccos_antitone hge
  rwa [Real.arccos_cos h0 (le_of_lt hπ)] at this

/-- Triangle inequality for the haversine distance when all latitudes lie in
[-90, 90]. -/
theorem haversine_triangle (lat1 lon1 lat2 lon2 lat3 lon3 : ℝ)
    (h1 : |lat1| ≤ 90) (h2 : |lat2| ≤ 90) (h3 : |lat3| ≤ 90) :
    haversine_distance lat1 lon1 lat3 lon3 ≤
      haversine_distance lat1 lon1 lat2 lon2 + haversine_distance lat2 lon2 lat3 lon3 := by
  rw [haversine_eq_arccos lat1 lon1 lat3 lon3 h1 h3,
    haversine_eq_arccos lat1 lon1 lat2 lon2 h1 h2,
    haversine_eq_arccos lat2 lon2 lat3 lon3 h2 h3, ← mul_add]
  apply mul_le_mul_of_nonneg_left _ (by norm_num)
  rw [← inner_sph (radians lat1) (radians lon1) (radians lat3) (radians lon3),
    ← inner_sph (radians lat1) (radians lon1) (radians lat2) (radians lon2),
    ← inner_sph (radians lat2) (radians lon2) (radians lat3) (radians lon3)]
  exact arccos_inner_triangle _ _ _ (norm_sph _ _) (norm_sph _ _) (norm_sph _ _)

/-! ### Pipeline invariant: every built graph keys nodes by id, keeps latitudes
in range, and stores edges no shorter than the great-circle distance between
their endpoints, with class coefficient at least 0.7. -/

theorem dget?_dset_self {K V : Type} [DecidableEq K] (l : List (K × V)) (k : K) (v : V) :
    dget? (dset l k v) k = some v := by
  induction l with
  | nil => simp [dset, dget?]
  | cons p rest ih =>
      obtain ⟨k2, v2⟩ := p
      by_cases h : k2 = k
      · rw [dset, if_pos h]
        simp only [dget?, if_pos h]
      · rw [dset, if_neg h]
        simp only [dget?, if_neg h]
        exact ih

theorem dget?_dset_ne {K V : Type} [DecidableEq K] (l : List (K × V)) (k : K) (v : V)
    (c : K) (h : k ≠ c) : dget? (dset l k v) c = dget? l c := by
  induction l with
  | nil => simp [dset, dget?, h]
  | cons p rest ih =>
      obtain ⟨k2, v2⟩ := p
      by_cases h2 : k2 = k
      · rw [dset, if_pos h2]
        have h3 : ¬(k2 = c) := fun hc => h (h2.symm.trans hc)
        simp only [dget?, if_neg h3]
      · rw [dset, if_neg h2]
        simp only [dget?]
        by_cases h3 : k2 = c
        · rw [if_pos h3, if_pos h3]
        · rw [if_neg h3, if_neg h3]
          exact ih

theorem dget?_some_mem {K V : Type} [DecidableEq K] {l : List (K × V)} {k : K} {v : V}
    (h : dget? l k = some v) : (k, v) ∈ l := by
  induction l with
  | nil => simp [dget?] at h
  | cons p rest ih =>
      obtain ⟨k2, v2⟩ := p
      simp only [dget?] at h
      by_cases h2 : k2 = k
      · rw [if_pos h2] at h
        obtain rfl := Option.some.inj h
        subst h2
        exact List.mem_cons_self _ _
      · rw [if_neg h2] at h
        exact List.mem_cons_of_mem _ (ih h)

theorem foldl_inv_mem {α β : Type} (f : α → β → α) (P : α → Prop) (l : List β)
    (h : ∀ a, P a → ∀ b ∈ l, P (f a b)) (a : α) (ha : P a) : P (l.foldl f a) := by
  induction l generalizing a with
  | nil => exact ha
  | cons b rest ih =>
      rw [List.foldl_cons]
      exact ih (fun a2 ha2 c hc => h a2 ha2 c (List.mem_cons_of_mem _ hc))
        (f a b) (h a ha b (List.mem_cons_self _ _))

theorem dgetD_ge {K : Type} [DecidableEq K] (l : List (K × ℝ)) (k : K) (d c : ℝ)
    (hl : ∀ p ∈ l, c ≤ p.2) (hd : c ≤ d) : c ≤ dgetD l k d := by
  induction l with
  | nil => simpa [dgetD, dget?] using hd
  | cons p rest ih =>
      obtain ⟨k2, v2⟩ := p
      simp only [dgetD, dget?]
      by_cases h : k2 = k
      · rw [if_pos h]
        simpa using hl (k2, v2) (List.mem_cons_self _ _)
      · rw [if_neg h]
        have := ih (fun p hp => hl p (List.mem_cons_of_mem _ hp))
        simpa [dgetD] using this

/-- Every class coefficient of `C_HIGHWAY`, and the default 1.0, is at least
0.7 (graph_builder.py lines 32–40). -/
theorem chw_ge (s : String) : (0.7 : ℝ) ≤ dgetD C_HIGHWAY s 1.0 := by
  apply dgetD_ge
  · intro p hp
    simp only [C_HIGHWAY, List.mem_cons, List.not_mem_nil, or_false] at hp
    rcases hp with rfl | rfl | rfl | rfl | rfl | rfl | rfl | rfl | rfl | rfl | rfl | rfl
      | rfl | rfl <;> norm_num
  · norm_num

theorem dgetD_map_const {K V : Type} [DecidableEq K] (l : List (K × V)) (k : K) (c : V) :
    dgetD (l.map fun p => (p.1, c)) k c = c := by
  induction l with
  | nil => simp [dgetD, dget?]
  | cons p rest ih =>
      simp only [List.map_cons, dgetD, dget?]
      by_cases h : p.1 = k
      · rw [if_pos h]
        rfl
      · rw [if_neg h]
        simpa [dgetD] using ih

/-- Under normal weather every context coefficient is 1, so the weight reduces
to `length * c_highway`. -/
theorem get_weight_normal_eq (e : GraphEdge) :
    e.get_weight "normal" = e.length * e.c_highway := by
  simp only [GraphEdge.get_weight]
  have h1 : dgetD C_CONTEXT "normal" C_CONTEXT_normal = C_CONTEXT_normal := by
    simp [C_CONTEXT, dgetD, dget?]
  rw [h1]
  unfold C_CONTEXT_normal
  rw [dgetD_map_const]
  ring

/-- Node-table invariant: every binding keys a node by its own id and carries
a latitude in [-90, 90]. -/
def NodeOK (g : LightGraph) : Prop :=
  ∀ p ∈ g.nodes, p.2.id = p.1 ∧ |p.2.lat| ≤ 90

/-- Adjacency invariant: every stored edge is keyed by its own endpoints, joins
two nodes present in the node table, is at least as long as the great-circle
distance between them, and has class coefficient at least 0.7. -/
def EdgesOK (g : LightGraph) : Prop :=
  ∀ p ∈ g.adjacency, ∀ q ∈ p.2,
    q.2.from_node = p.1 ∧ q.2.to_node = q.1 ∧
    ∃ nu nv, dget? g.nodes p.1 = some nu ∧ dget? g.nodes q.1 = some nv ∧
      haversine_distance nu.lat nu.lon nv.lat nv.lon ≤ q.2.length ∧
      0.7 ≤ q.2.c_highway

/-- The conjunction of the two build invariants. -/
def GraphOK (g : LightGraph) : Prop := NodeOK g ∧ EdgesOK g

theorem add_edge_nodes (g : LightGraph) (e : GraphEdge) :
    (g.add_edge e).nodes = g.nodes := rfl

theorem NodeOK_add_edge {g : LightGraph} (e : GraphEdge) (hg : NodeOK g) :
    NodeOK (g.add_edge e) := by
  intro p hp
  rw [add_edge_nodes] at hp
  exact hg p hp

theorem mem_add_edge_pre {g : LightGraph} {e : GraphEdge}
    {p : Int × List (Int × GraphEdge)}
    (hp : p ∈ (if dcontains g.adjacency e.from_node = true then g.adjacency
      else dset g.adjacency e.from_node [])) :
    p ∈ g.adjacency ∨ p = (e.from_node, []) := by
  by_cases hc : dcontains g.adjacency e.from_node = true
  · rw [if_pos hc] at hp
    exact Or.inl hp
  · rw [if_neg hc] at hp
    exact dset_mem hp

theorem EdgesOK_add_edge {g : LightGraph} {e : GraphEdge} (hg : EdgesOK g)
    (he : ∃ nu nv, dget? g.nodes e.from_node = some nu ∧
      dget? g.nodes e.to_node = some nv ∧
      haversine_distance nu.lat nu.lon nv.lat nv.lon ≤ e.length ∧
      0.7 ≤ e.c_highway) :
    EdgesOK (g.add_edge e) := by
  intro p hp q hq
  rw [add_edge_nodes]
  simp only [LightGraph.add_edge] at hp
  rcases dmodify_mem hp with hpadj | ⟨hpk, v, hv, hpe⟩
  · rcases mem_add_edge_pre hpadj with hold | hnew
    · exact hg p hold q hq
    · rw [hnew] at hq
      exact absurd hq (List.not_mem_nil q)
  · rw [hpe] at hq
    rcases List.mem_append.mp hq with hqv | hqe
    · rcases mem_add_edge_pre hv with hold | hnew
      · obtain ⟨hfrom, hto, nu, nv, hnu, hnv, hhav, hchw⟩ := hg (e.from_node, v) hold q hqv
        dsimp only at hfrom hnu
        exact ⟨hfrom.trans hpk.symm, hto, nu, nv, hpk ▸ hnu, hnv, hhav, hchw⟩
      · rw [(Prod.mk.injEq _ _ _ _).mp hnew |>.2] at hqv
        exact absurd hqv (List.not_mem_nil q)
    · obtain rfl := List.mem_singleton.mp hqe
      obtain ⟨nu, nv, hnu, hnv, hhav, hchw⟩ := he
      exact ⟨hpk.symm, rfl, nu, nv, hpk ▸ hnu, hnv, hhav, hchw⟩

theorem EdgesOK_of_adj_nil {g : LightGraph}
    (h : ∀ p ∈ g.adjacency, p.2 = ([] : List (Int × GraphEdge))) : EdgesOK g := by
  intro p hp q hq
  rw [h p hp] at hq
  exact absurd hq (List.not_mem_nil q)

/-- Lookup after a node-insertion fold, for keys outside the id list. -/
theorem nodesFold_lookup_notmem (F : Int → Option GraphNode) (k : Int) :
    ∀ (ids : List Int) (fg : LightGraph),
      (∀ i n, F i = some n → n.id = i) → k ∉ ids →
      dget? ((ids.foldl
        (fun g i => match F i with | some n => g.add_node n | none => g) fg)).nodes k
        = dget? fg.nodes k := by
  intro ids
  induction ids with
  | nil => intro fg _ _; rfl
  | cons i rest ih =>
      intro fg hid hk
      have hki : k ≠ i := fun h => hk (h ▸ List.mem_cons_self _ _)
      have hkr : k ∉ rest := fun h => hk (List.mem_cons_of_mem _ h)
      rw [List.foldl_cons, ih _ hid hkr]
      cases hF : F i with
      | none => rfl
      | some n =>
          show dget? (fg.add_node n).nodes k = dget? fg.nodes k
          simp only [LightGraph.add_node]
          rw [hid i n hF]
          exact dget?_dset_ne fg.nodes i n k (fun h => hki h.symm)

/-- Lookup after a node-insertion fold, for an id in the list whose source
binding exists. -/
theorem nodesFold_lookup_mem (F : Int → Option GraphNode) (k : Int) (n : GraphNode) :
    ∀ (ids : List Int) (fg : LightGraph),
      (∀ i m, F i = some m → m.id = i) → k ∈ ids → F k = some n →
      dget? ((ids.foldl
        (fun g i => match F i with | some m => g.add_node m | none => g) fg)).nodes k
        = some n := by
  intro ids
  induction ids with
  | nil => intro fg _ hk _; exact absurd hk (List.not_mem_nil k)
  | cons i rest ih =>
      intro fg hid hk hF
      rw [List.foldl_cons]
      by_cases hkr : k ∈ rest
      · exact ih _ hid hkr hF
      · have hki : k = i := by
          rcases List.mem_cons.mp hk with h | h
          · exact h
          · exact absurd h hkr
        subst hki
        rw [nodesFold_lookup_notmem F k rest _ hid hkr]
        rw [hF]
        show dget? (fg.add_node n).nodes k = some n
        simp only [LightGraph.add_node]
        rw [hid k n hF]
        exact dget?_dset_self fg.nodes k n

/-- Every binding produced by a node-insertion fold satisfies any property
held by the inserted nodes and the start graph. -/
theorem nodesFold_prop (F : Int → Option GraphNode) (P : Int × GraphNode → Prop)
    (hF : ∀ i n, F i = some n → P (n.id, n)) :
    ∀ (ids : List Int) (fg : LightGraph), (∀ p ∈ fg.nodes, P p) →
      ∀ p ∈ ((ids.foldl
        (fun g i => match F i with | some n => g.add_node n | none => g) fg)).nodes, P p := by
  intro ids
  induction ids with
  | nil => intro fg hfg; exact hfg
  | cons i rest ih =>
      intro fg hfg
      rw [List.foldl_cons]
      apply ih
      cases hFi : F i with
      | none => exact hfg
      | some n =>
          intro p hp
          simp only [LightGraph.add_node] at hp
          rcases dset_mem hp with h | h
          · exact hfg p h
          · rw [h]
            exact hF i n hFi

/-- A node-insertion fold keeps every adjacency list empty. -/
theorem nodesFold_adj (F : Int → Option GraphNode) :
    ∀ (ids : List Int) (fg : LightGraph),
      (∀ p ∈ fg.adjacency, p.2 = ([] : List (Int × GraphEdge))) →
      ∀ p ∈ ((ids.foldl
        (fun g i => match F i with | some n => g.add_node n | none => g) fg)).adjacency,
        p.2 = [] := by
  intro ids
  induction ids with
  | nil => intro fg hfg; exact hfg
  | cons i rest ih =>
      intro fg hfg
      rw [List.foldl_cons]
      apply ih
      cases hFi : F i with
      | none => exact hfg
      | some n =>
          intro p hp
          simp only [LightGraph.add_node] at hp
          by_cases hc : dcontains fg.adjacency n.id = true
          · rw [if_pos hc] at hp
            exact hfg p hp
          · rw [if_neg hc] at hp
            rcases dset_mem hp with h | h
            · exact hfg p h
            · rw [h]

/-- `addPairEdges` preserves the invariant, given a class coefficient of at
least 0.7: every edge it adds has length exactly the haversine distance
between its two looked-up endpoints. -/
theorem GraphOK_addPairEdges (way_id : Int) (ht nm : String) (sp chw : ℝ)
    (rev ow : Bool) (g : LightGraph) (u v : Int)
    (hg : GraphOK g) (hchw : (0.7 : ℝ) ≤ chw) :
    GraphOK (addPairEdges way_id ht nm sp chw rev ow g u v) := by
  obtain ⟨hN, hE⟩ := hg
  cases hu : g.get_node u with
  | none =>
      simp only [addPairEdges, hu]
      exact ⟨hN, hE⟩
  | some fu =>
      cases hv : g.get_node v with
      | none =>
          simp only [addPairEdges, hu, hv]
          exact ⟨hN, hE⟩
      | some fv =>
          simp only [addPairEdges, hu, hv]
          have hfu : dget? g.nodes u = some fu := hu
          have hfv : dget? g.nodes v = some fv := hv
          by_cases hrev : rev = true
          · rw [if_pos hrev]
            exact ⟨NodeOK_add_edge _ hN,
              EdgesOK_add_edge hE ⟨fv, fu, hfv, hfu,
                le_of_eq (hav_symm fv.lat fv.lon fu.lat fu.lon), hchw⟩⟩
          · rw [if_neg hrev]
            by_cases how : ow = true
            · rw [if_pos how]
              exact ⟨NodeOK_add_edge _ hN,
                EdgesOK_add_edge hE ⟨fu, fv, hfu, hfv, le_refl _, hchw⟩⟩
            · rw [if_neg how]
              refine ⟨NodeOK_add_edge _ (NodeOK_add_edge _ hN), ?_⟩
              apply EdgesOK_add_edge
                (EdgesOK_add_edge hE ⟨fu, fv, hfu, hfv, le_refl _, hchw⟩)
              exact ⟨fv, fu, hfv, hfu,
                le_of_eq (hav_symm fv.lat fv.lon fu.lat fu.lon), hchw⟩

/-- `addWayEdges` preserves the invariant: the class coefficient it stores is
a `C_HIGHWAY` lookup with default 1.0, hence at least 0.7. -/
theorem GraphOK_addWayEdges (g : LightGraph) (way : OSMWay) (hg : GraphOK g) :
    GraphOK (addWayEdges g way) := by
  simp only [addWayEdges]
  refine foldl_inv_mem _ GraphOK _ ?_ _ hg
  intro a ha b _
  exact GraphOK_addPairEdges way.id _ _ _ _ _ _ a b.1 b.2 ha (chw_ge _)

/-- The raw graph satisfies the invariant whenever the OSM node table keys
each node by its own id with latitude in range. -/
theorem build_raw_graph_ok (osm : OSMData) (valid_ways : List OSMWay)
    (h90 : ∀ p ∈ osm.nodes, |p.2.lat| ≤ 90) :
    GraphOK (build_raw_graph osm valid_ways) := by
  have hg0 : (collectUsedNodeIds valid_ways).foldl
      (fun g node_id =>
        match dget? osm.nodes node_id with
        | some osm_node => g.add_node ⟨osm_node.id, osm_node.lat, osm_node.lon⟩
        | none => g) LightGraph.empty
      = (collectUsedNodeIds valid_ways).foldl
        (fun g i =>
          match Option.map (fun m : OSMNode => (⟨m.id, m.lat, m.lon⟩ : GraphNode))
              (dget? osm.nodes i) with
          | some n => g.add_node n
          | none => g) LightGraph.empty := by
    apply List.foldl_ext
    intro a b _
    cases dget? osm.nodes b <;> rfl
  simp only [build_raw_graph]
  rw [hg0]
  refine foldl_inv_mem _ GraphOK _ (fun a ha b _ => GraphOK_addWayEdges a b ha) _ ?_
  constructor
  · intro p hp
    refine nodesFold_prop _ (fun p => p.2.id = p.1 ∧ |p.2.lat| ≤ 90) ?_ _ _ ?_ p hp
    · intro i n hFi
      cases hdg : dget? osm.nodes i with
      | none =>
          rw [hdg] at hFi
          exact absurd hFi (by simp)
      | some m =>
          rw [hdg] at hFi
          obtain rfl := Option.some.inj hFi
          exact ⟨rfl, h90 _ (dget?_some_mem hdg)⟩
    · intro p2 hp2
      exact absurd hp2 (List.not_mem_nil p2)
  · apply EdgesOK_of_adj_nil
    intro p hp
    refine nodesFold_adj _ _ _ ?_ p hp
    intro p2 hp2
    exact absurd hp2 (List.not_mem_nil p2)

/-- The LSCC edge-restriction fold preserves the invariant over any start
graph that carries the node bindings of the restricted node set. -/
theorem filter_fold_ok (g : LightGraph) (hE : EdgesOK g) (lscc : List Int)
    (start : LightGraph)
    (hlook : ∀ k n, k ∈ lscc → dget? g.nodes k = some n →
      dget? start.nodes k = some n)
    (hE0 : EdgesOK start) (hN0 : NodeOK start) :
    GraphOK (g.adjacency.foldl
      (fun fg p =>
        if p.1 ∈ lscc then
          p.2.foldl (fun fg q => if q.1 ∈ lscc then fg.add_edge q.2 else fg) fg
        else fg) start) := by
  have hP : (fun fg : LightGraph => fg.nodes = start.nodes ∧ EdgesOK fg)
      (g.adjacency.foldl
        (fun fg p =>
          if p.1 ∈ lscc then
            p.2.foldl (fun fg q => if q.1 ∈ lscc then fg.add_edge q.2 else fg) fg
          else fg) start) := by
    refine foldl_inv_mem _
      (fun fg : LightGraph => fg.nodes = start.nodes ∧ EdgesOK fg) _ ?_ _ ⟨rfl, hE0⟩
    intro a ha p hp
    by_cases h1 : p.1 ∈ lscc
    · rw [if_pos h1]
      refine foldl_inv_mem _
        (fun fg : LightGraph => fg.nodes = start.nodes ∧ EdgesOK fg) _ ?_ _ ha
      intro a2 ha2 q hq
      by_cases h2 : q.1 ∈ lscc
      · rw [if_pos h2]
        obtain ⟨hfrom, hto, nu, nv, hnu, hnv, hhav, hchw⟩ := hE p hp q hq
        refine ⟨ha2.1, EdgesOK_add_edge ha2.2 ⟨nu, nv, ?_, ?_, hhav, hchw⟩⟩
        · rw [ha2.1, hfrom]
          exact hlook p.1 nu h1 hnu
        · rw [ha2.1, hto]
          exact hlook q.1 nv h2 hnv
      · rw [if_neg h2]
        exact ha2
    · rw [if_neg h1]
      exact ha
  exact ⟨fun p hp => hN0 p (hP.1 ▸ hp), hP.2⟩

/-- `filter_to_lscc` preserves the invariant. -/
theorem filter_to_lscc_ok (g : LightGraph) (hg : GraphOK g) (lscc : List Int) :
    GraphOK (filter_to_lscc g lscc) := by
  obtain ⟨hN, hE⟩ := hg
  simp only [filter_to_lscc]
  refine filter_fold_ok g hE lscc _ ?_ ?_ ?_
  · intro k n hk hkn
    exact nodesFold_lookup_mem (fun i => dget? g.nodes i) k n _ _
      (fun i m h => (hN _ (dget?_some_mem h)).1) hk hkn
  · apply EdgesOK_of_adj_nil
    intro p hp
    refine nodesFold_adj (fun i => dget? g.nodes i) _ _ ?_ p hp
    intro p2 hp2
    exact absurd hp2 (List.not_mem_nil p2)
  · intro p hp
    refine nodesFold_prop (fun i => dget? g.nodes i)
      (fun p => p.2.id = p.1 ∧ |p.2.lat| ≤ 90) ?_ _ _ ?_ p hp
    · intro i n h
      exact ⟨rfl, (hN _ (dget?_some_mem h)).2⟩
    · intro p2 hp2
      exact absurd hp2 (List.not_mem_nil p2)

/-- Walking a degree-2 chain accumulates at least the great-circle distance
from any reference node to the chain end: each step extends the bound by the
next edge's length through the haversine triangle inequality. -/
theorem walkChain_len (g : LightGraph) (deg2 : List Int)
    (hN : NodeOK g) (hE : EdgesOK g) (ns : GraphNode) (hns : |ns.lat| ≤ 90) :
    ∀ (fuel : Nat) (prev cur : Int) (path : List Int) (geom : List (ℝ × ℝ))
      (len : ℝ) (ncur : GraphNode),
      dget? g.nodes cur = some ncur →
      haversine_distance ns.lat ns.lon ncur.lat ncur.lon ≤ len →
      path.getLastD 0 = cur →
      ∃ nlast,
        dget? g.nodes ((walkChain g deg2 fuel prev cur path geom len).1.getLastD 0)
          = some nlast ∧
        haversine_distance ns.lat ns.lon nlast.lat nlast.lon ≤
          (walkChain g deg2 fuel prev cur path geom len).2.2 := by
  intro fuel
  induction fuel with
  | zero =>
      intro prev cur path geom len ncur hcur hlen hlast
      refine ⟨ncur, ?_, hlen⟩
      show dget? g.nodes (path.getLastD 0) = some ncur
      rw [hlast]
      exact hcur
  | succ fuel ih =>
      intro prev cur path geom len ncur hcur hlen hlast
      simp only [walkChain]
      by_cases hd : cur ∈ deg2
      · rw [if_pos hd]
        cases hfil : (dgetD g.adjacency cur []).filter (fun q => decide (q.1 ≠ prev)) with
        | nil =>
            refine ⟨ncur, ?_, hlen⟩
            show dget? g.nodes (path.getLastD 0) = some ncur
            rw [hlast]
            exact hcur
        | cons qh rest2 =>
            obtain ⟨next_node, next_edge⟩ := qh
            have hmem0 : (next_node, next_edge) ∈
                (dgetD g.adjacency cur []).filter (fun q => decide (q.1 ≠ prev)) := by
              rw [hfil]
              exact List.mem_cons_self _ _
            have hmem := List.mem_of_mem_filter hmem0
            cases hadj : dget? g.adjacency cur with
            | none =>
                simp only [dgetD, hadj, Option.getD_none] at hmem
                exact absurd hmem (List.not_mem_nil _)
            | some lst =>
                have hlst := dget?_some_mem hadj
                have hq : (next_node, next_edge) ∈ lst := by
                  simpa [dgetD, hadj] using hmem
                obtain ⟨hfrom, hto, nu, nv, hnu, hnv, hhav, hchw⟩ :=
                  hE (cur, lst) hlst (next_node, next_edge) hq
                dsimp only at hnu hnv hhav
                rw [hcur] at hnu
                obtain rfl := Option.some.inj hnu
                have h90cur : |ncur.lat| ≤ 90 := (hN _ (dget?_some_mem hcur)).2
                have h90nv : |nv.lat| ≤ 90 := (hN _ (dget?_some_mem hnv)).2
                have htri := haversine_triangle ns.lat ns.lon ncur.lat ncur.lon
                  nv.lat nv.lon hns h90cur h90nv
                exact ih cur next_node (path ++ [next_node])
                  (geom ++ next_edge.geometry.drop 1) (len + next_edge.length) nv hnv
                  (by linarith) (List.getLastD_concat 0 next_node path)
      · rw [if_neg hd]
        refine ⟨ncur, ?_, hlen⟩
        show dget? g.nodes (path.getLastD 0) = some ncur
        rw [hlast]
        exact hcur

/-- One `compressStep` preserves the invariant: a compressed edge joins the
retained start node to the retained walk end, with length the accumulated
chain length (at least the haversine distance by `walkChain_len`) and the
original edge's class coefficient. -/
theorem compressStep_ok (g : LightGraph) (hN : NodeOK g) (hE : EdgesOK g)
    (keep deg2 : List Int) (start_node : Int) (g0nodes : List (Int × GraphNode))
    (hlook : ∀ k n, k ∈ keep → dget? g.nodes k = some n → dget? g0nodes k = some n)
    (acc : LightGraph × List (Int × Int)) (hacc1 : acc.1.nodes = g0nodes)
    (haccE : EdgesOK acc.1) (hsk : start_node ∈ keep)
    (q : Int × GraphEdge) (hq : q ∈ dgetD g.adjacency start_node []) :
    (compressStep g keep deg2 start_node acc q).1.nodes = g0nodes ∧
      EdgesOK (compressStep g keep deg2 start_node acc q).1 := by
  simp only [compressStep]
  by_cases hmem : (start_node, q.1) ∈ acc.2
  · rw [if_pos hmem]
    exact ⟨hacc1, haccE⟩
  · rw [if_neg hmem]
    cases hadj : dget? g.adjacency start_node with
    | none =>
        simp only [dgetD, hadj, Option.getD_none] at hq
        exact absurd hq (List.not_mem_nil q)
    | some lst =>
        have hlst := dget?_some_mem hadj
        have hqlst : q ∈ lst := by
          simpa [dgetD, hadj] using hq
        obtain ⟨hfrom, hto, nu, nv, hnu, hnv, hhav, hchw⟩ :=
          hE (start_node, lst) hlst q hqlst
        dsimp only at hnu hnv hhav hchw
        have h90u : |nu.lat| ≤ 90 := (hN _ (dget?_some_mem hnu)).2
        obtain ⟨nlast, hlook2, hhav2⟩ := walkChain_len g deg2 hN hE nu h90u
          (walkFuel g) start_node q.1 [start_node, q.1] q.2.geometry q.2.length
          nv hnv hhav rfl
        by_cases hend : (walkChain g deg2 (walkFuel g) start_node q.1
            [start_node, q.1] q.2.geometry q.2.length).1.getLastD 0 ∈ keep
        · rw [if_pos hend]
          refine ⟨hacc1, ?_⟩
          refine EdgesOK_add_edge haccE ⟨nu, nlast, ?_, ?_, hhav2, hchw⟩
          · show dget? acc.1.nodes start_node = some nu
            rw [hacc1]
            exact hlook start_node nu hsk hnu
          · rw [hacc1]
            exact hlook _ nlast hend hlook2
        · rw [if_neg hend]
          exact ⟨hacc1, haccE⟩

/-- The chain-emission double fold of `compress_graph` preserves the
invariant over any start pair whose graph carries the node bindings of the
retained node set. -/
theorem compress_fold_ok (g : LightGraph) (hN : NodeOK g) (hE : EdgesOK g)
    (keep deg2 : List Int) (start : LightGraph × List (Int × Int))
    (hlook : ∀ k n, k ∈ keep → dget? g.nodes k = some n →
      dget? start.1.nodes k = some n)
    (hE0 : EdgesOK start.1) (hN0 : NodeOK start.1) :
    GraphOK ((keep.foldl
      (fun acc start_node =>
        (dgetD g.adjacency start_node []).foldl (compressStep g keep deg2 start_node) acc)
      start).1) := by
  have hP : (fun acc : LightGraph × List (Int × Int) =>
      acc.1.nodes = start.1.nodes ∧ EdgesOK acc.1)
      (keep.foldl
        (fun acc start_node =>
          (dgetD g.adjacency start_node []).foldl (compressStep g keep deg2 start_node) acc)
        start) := by
    refine foldl_inv_mem _
      (fun acc : LightGraph × List (Int × Int) =>
        acc.1.nodes = start.1.nodes ∧ EdgesOK acc.1) _ ?_ _ ⟨rfl, hE0⟩
    intro a ha b hb
    refine foldl_inv_mem _
      (fun acc : LightGraph × List (Int × Int) =>
        acc.1.nodes = start.1.nodes ∧ EdgesOK acc.1) _ ?_ _ ha
    intro a2 ha2 q hq
    exact compressStep_ok g hN hE keep deg2 b start.1.nodes
      (fun k n hk hkn => hlook k n hk hkn) a2 ha2.1 ha2.2 hb q hq
  exact ⟨fun p hp => hN0 p (hP.1 ▸ hp), hP.2⟩

/-- `compress_graph` preserves the invariant. -/
theorem compress_graph_ok (g : LightGraph) (hg : GraphOK g) :
    GraphOK (compress_graph g) := by
  obtain ⟨hN, hE⟩ := hg
  simp only [compress_graph]
  refine compress_fold_ok g hN hE _ _ _ ?_ ?_ ?_
  · intro k n hk hkn
    exact nodesFold_lookup_mem (fun i => dget? g.nodes i) k n _ _
      (fun i m h => (hN _ (dget?_some_mem h)).1) hk hkn
  · apply EdgesOK_of_adj_nil
    intro p hp
    refine nodesFold_adj (fun i => dget? g.nodes i) _ _ ?_ p hp
    intro p2 hp2
    exact absurd hp2 (List.not_mem_nil p2)
  · intro p hp
    refine nodesFold_prop (fun i => dget? g.nodes i)
      (fun p => p.2.id = p.1 ∧ |p.2.lat| ≤ 90) ?_ _ _ ?_ p hp
    · intro i n h
      exact ⟨rfl, (hN _ (dget?_some_mem h)).2⟩
    · intro p2 hp2
      exact absurd hp2 (List.not_mem_nil p2)

theorem GraphOK_empty : GraphOK LightGraph.empty :=
  ⟨fun p hp => absurd hp (List.not_mem_nil p),
   fun p hp => absurd hp (List.not_mem_nil p)⟩

/-- The full pipeline satisfies the invariant whenever the OSM node table is
keyed by id with latitudes in range. -/
theorem build_graph_from_osm_ok (osm : OSMData)
    (h90 : ∀ p ∈ osm.nodes, |p.2.lat| ≤ 90) :
    GraphOK (build_graph_from_osm osm) := by
  simp only [build_graph_from_osm]
  by_cases h1 : (filter_valid_ways osm).isEmpty = true
  · rw [if_pos h1]
    exact GraphOK_empty
  · rw [if_neg h1]
    by_cases h2 : (find_largest_scc (build_raw_graph osm (filter_valid_ways osm))).isEmpty
        = true
    · rw [if_pos h2]
      exact GraphOK_empty
    · rw [if_neg h2]
      exact compress_graph_ok _
        (filter_to_lscc_ok _ (build_raw_graph_ok osm _ h90) _)

/-! ## Claim C4: admissibility of the heuristic -/

/-- Concrete two-node OSM extract for the C4 witness: a single bidirectional
residential way between (lat 0, lon 0) and (lat 0, lon 1). -/
noncomputable def osmW4 : OSMData :=
  ⟨[(1, ⟨1, 0, 0⟩), (2, ⟨2, 0, 1⟩)], [⟨9, [1, 2], [("highway", "residential")]⟩]⟩

/-- The edge the pipeline produces from node 1 to node 2 of `osmW4`. -/
noncomputable def eW4 : GraphEdge :=
  ⟨1, 2, 9, haversine_distance 0 0 0 1, "residential", "", 30, 1.2, [(0, 0), (1, 0)]⟩

/-- C4.  The heuristic is admissible on every graph the pipeline builds from
an OSM extract whose latitudes lie in [-90, 90]: for every directed edge
`(u, v)` of `build_graph_from_osm osm` and every target node `t`,
`heuristic u t - heuristic v t ≤ get_weight e "normal"`.  The proof threads
the invariant that every stored edge is at least as long as the great-circle
distance between its endpoints and has class coefficient at least 0.7 through
raw construction, LSCC restriction, and degree-2 compression, and combines it
with the spherical triangle inequality for the haversine formula. -/
theorem c4_heuristic_admissible (osm : OSMData)
    (h90 : ∀ p ∈ osm.nodes, |p.2.lat| ≤ 90)
    (u v t : Int) (e : GraphEdge)
    (he : (build_graph_from_osm osm).edgeIn u v e)
    (nu nv nt : GraphNode)
    (hu : (build_graph_from_osm osm).get_node u = some nu)
    (hv : (build_graph_from_osm osm).get_node v = some nv)
    (ht : (build_graph_from_osm osm).get_node t = some nt) :
    heuristic nu nt - heuristic nv nt ≤ e.get_weight "normal" := by
  obtain ⟨hN, hE⟩ := build_graph_from_osm_ok osm h90
  obtain ⟨lst, hlst, hmem⟩ := he
  obtain ⟨hfrom, hto, nu', nv', hnu', hnv', hhav, hchw⟩ :=
    hE (u, lst) (dget?_some_mem hlst) (v, e) hmem
  dsimp only at hnu' hnv' hhav hchw
  have hu' : dget? (build_graph_from_osm osm).nodes u = some nu := hu
  have hv' : dget? (build_graph_from_osm osm).nodes v = some nv := hv
  have ht' : dget? (build_graph_from_osm osm).nodes t = some nt := ht
  rw [hu'] at hnu'
  obtain rfl := Option.some.inj hnu'
  rw [hv'] at hnv'
  obtain rfl := Option.some.inj hnv'
  have h90u : |nu.lat| ≤ 90 := (hN _ (dget?_some_mem hu')).2
  have h90v : |nv.lat| ≤ 90 := (hN _ (dget?_some_mem hv')).2
  have h90t : |nt.lat| ≤ 90 := (hN _ (dget?_some_mem ht')).2
  have htri := haversine_triangle nu.lat nu.lon nv.lat nv.lon nt.lat nt.lon
    h90u h90v h90t
  have hlen0 : 0 ≤ e.length :=
    le_trans (haversine_nonneg nu.lat nu.lon nv.lat nv.lon) hhav
  have hmul := mul_le_mul_of_nonneg_left hchw hlen0
  rw [get_weight_normal_eq]
  simp only [heuristic]
  linarith

/-- C4 witness: the pipeline output of the concrete extract `osmW4` contains
the edge `eW4` from node 1 to node 2, and the heuristic difference toward
target 2 is bounded by its normal-weather weight. -/
theorem c4_heuristic_admissible_witness :
    heuristic ⟨1, 0, 0⟩ ⟨2, 0, 1⟩ - heuristic ⟨2, 0, 1⟩ ⟨2, 0, 1⟩ ≤
      eW4.get_weight "normal" :=
  c4_heuristic_admissible osmW4
    (by
      intro p hp
      rcases List.mem_cons.mp hp with rfl | hp2
      · norm_num
      rcases List.mem_cons.mp hp2 with rfl | hp3
      · norm_num
      exact absurd hp3 (List.not_mem_nil p))
    1 2 2 eW4
    ⟨[(2, eW4)], rfl, List.mem_singleton.mpr rfl⟩
    ⟨1, 0, 0⟩ ⟨2, 0, 1⟩ ⟨2, 0, 1⟩ rfl rfl rfl

/-! ## Claim C6: one-way policy of `build_raw_graph`

The claim quantifies over every retained way of the build and every adjacent
node pair along it.  The development below first characterizes one loop-body
step (`addPairEdges`) exactly on an arbitrary graph — capturing which edges
the pair adds and that it adds no others — and then shows the added edges
survive to the final graph: `add_edge` never removes an adjacency entry, the
edge phase never touches the node table, and the way and pair folds reach
every member. -/

theorem dget?_dmodify {K V : Type} [DecidableEq K] (l : List (K × V)) (k : K)
    (f : V → V) (c : K) :
    dget? (dmodify l k f) c =
      if c = k then Option.map f (dget? l c) else dget? l c := by
  induction l with
  | nil =>
      by_cases h : c = k <;> simp [dmodify, dget?, h]
  | cons p rest ih =>
      obtain ⟨k2, v2⟩ := p
      simp only [dmodify, List.map_cons] at *
      by_cases h2 : k2 = k
      · rw [if_pos h2]
        by_cases h3 : k2 = c
        · have hck : c = k := h3.symm.trans h2
          simp only [dget?, if_pos h3, if_pos hck]
          rfl
        · have hck : ¬ c = k := fun hc => h3 (h2.trans hc.symm)
          simp only [dget?, if_neg h3, if_neg hck]
          rw [ih, if_neg hck]
      · rw [if_neg h2]
        by_cases h3 : k2 = c
        · have hck : ¬ c = k := fun hc => h2 (h3.trans hc)
          simp only [dget?, if_pos h3, if_neg hck]
        · simp only [dget?, if_neg h3]
          rw [ih]

/-- `add_edge` appends the new edge to its source's adjacency list, so the new
edge is present afterwards. -/
theorem edgeIn_add_edge_self (g : LightGraph) (e : GraphEdge) :
    (g.add_edge e).edgeIn e.from_node e.to_node e := by
  simp only [LightGraph.edgeIn, LightGraph.add_edge]
  by_cases hcon : dcontains g.adjacency e.from_node = true
  · rw [if_pos hcon]
    cases hdq : dget? g.adjacency e.from_node with
    | none =>
        simp [dcontains, hdq] at hcon
    | some lst0 =>
        refine ⟨lst0 ++ [(e.to_node, e)], ?_,
          List.mem_append_right _ (List.mem_singleton.mpr rfl)⟩
        rw [dget?_dmodify, if_pos rfl, hdq]
        rfl
  · rw [if_neg hcon]
    refine ⟨[] ++ [(e.to_node, e)], ?_,
      List.mem_append_right _ (List.mem_singleton.mpr rfl)⟩
    rw [dget?_dmodify, if_pos rfl, dget?_dset_self]
    rfl

/-- `add_edge` only appends, so every previously stored edge is still
present. -/
theorem edgeIn_add_edge_mono {g : LightGraph} {u v : Int} {e : GraphEdge}
    (e2 : GraphEdge) (h : g.edgeIn u v e) : (g.add_edge e2).edgeIn u v e := by
  obtain ⟨lst, hlst, hm⟩ := h
  simp only [LightGraph.edgeIn, LightGraph.add_edge]
  by_cases hk : u = e2.from_node
  · subst hk
    have hcon : dcontains g.adjacency e2.from_node = true := by
      simp [dcontains, hlst]
    rw [if_pos hcon]
    refine ⟨lst ++ [(e2.to_node, e2)], ?_, List.mem_append_left _ hm⟩
    rw [dget?_dmodify, if_pos rfl, hlst]
    rfl
  · refine ⟨lst, ?_, hm⟩
    rw [dget?_dmodify, if_neg hk]
    by_cases hcon : dcontains g.adjacency e2.from_node = true
    · rw [if_pos hcon]
      exact hlst
    · rw [if_neg hcon]
      rw [dget?_dset_ne _ _ _ _ (fun hc => hk hc.symm)]
      exact hlst

theorem addPairEdges_nodes (way_id : Int) (ht nm : String) (sp ch : ℝ)
    (rev ow : Bool) (g : LightGraph) (u v : Int) :
    (addPairEdges way_id ht nm sp ch rev ow g u v).nodes = g.nodes := by
  cases hu : g.get_node u with
  | none => simp only [addPairEdges, hu]
  | some fu =>
      cases hv : g.get_node v with
      | none => simp only [addPairEdges, hu, hv]
      | some fv =>
          simp only [addPairEdges, hu, hv]
          split_ifs <;> rfl

theorem addPairEdges_mono (way_id : Int) (ht nm : String) (sp ch : ℝ)
    (rev ow : Bool) (g : LightGraph) (x y : Int) {a b : Int} {e : GraphEdge}
    (h : g.edgeIn a b e) :
    (addPairEdges way_id ht nm sp ch rev ow g x y).edgeIn a b e := by
  cases hu : g.get_node x with
  | none => simpa only [addPairEdges, hu] using h
  | some fu =>
      cases hv : g.get_node y with
      | none => simpa only [addPairEdges, hu, hv] using h
      | some fv =>
          simp only [addPairEdges, hu, hv]
          split_ifs
          · exact edgeIn_add_edge_mono _ h
          · exact edgeIn_add_edge_mono _ h
          · exact edgeIn_add_edge_mono _ (edgeIn_add_edge_mono _ h)

theorem addWayEdges_nodes (g : LightGraph) (way : OSMWay) :
    (addWayEdges g way).nodes = g.nodes := by
  simp only [addWayEdges]
  refine foldl_inv_mem _ (fun g2 : LightGraph => g2.nodes = g.nodes) _ ?_ _ rfl
  intro g2 hg2 p _
  rw [addPairEdges_nodes]
  exact hg2

theorem addWayEdges_mono (g : LightGraph) (way : OSMWay) {a b : Int}
    {e : GraphEdge} (h : g.edgeIn a b e) : (addWayEdges g way).edgeIn a b e := by
  simp only [addWayEdges]
  refine foldl_inv_mem _ (fun g2 : LightGraph => g2.edgeIn a b e) _ ?_ _ h
  intro g2 hg2 p _
  exact addPairEdges_mono _ _ _ _ _ _ _ g2 p.1 p.2 hg2

theorem waysFold_nodes (ways : List OSMWay) (g : LightGraph) :
    (ways.foldl addWayEdges g).nodes = g.nodes := by
  refine foldl_inv_mem _ (fun g2 : LightGraph => g2.nodes = g.nodes) _ ?_ _ rfl
  intro g2 hg2 w _
  rw [addWayEdges_nodes]
  exact hg2

/-- Exact per-pair semantics of one edge-loop step: on any graph in which both
endpoints resolve, `addPairEdges` adds exactly the forward edge, exactly the
reverse edge with the reversed polyline, or both, as the booleans dictate. -/
theorem addPairEdges_eq (way_id : Int) (ht nm : String) (sp ch : ℝ)
    (rev ow : Bool) (g : LightGraph) (u v : Int) (nu nv : GraphNode)
    (hu : g.get_node u = some nu) (hv : g.get_node v = some nv) :
    (rev = true →
      addPairEdges way_id ht nm sp ch rev ow g u v =
        g.add_edge ⟨v, u, way_id, haversine_distance nu.lat nu.lon nv.lat nv.lon,
          ht, nm, sp, ch, [(nv.lon, nv.lat), (nu.lon, nu.lat)]⟩) ∧
    (rev = false → ow = true →
      addPairEdges way_id ht nm sp ch rev ow g u v =
        g.add_edge ⟨u, v, way_id, haversine_distance nu.lat nu.lon nv.lat nv.lon,
          ht, nm, sp, ch, [(nu.lon, nu.lat), (nv.lon, nv.lat)]⟩) ∧
    (rev = false → ow = false →
      addPairEdges way_id ht nm sp ch rev ow g u v =
        (g.add_edge ⟨u, v, way_id, haversine_distance nu.lat nu.lon nv.lat nv.lon,
          ht, nm, sp, ch, [(nu.lon, nu.lat), (nv.lon, nv.lat)]⟩).add_edge
          ⟨v, u, way_id, haversine_distance nu.lat nu.lon nv.lat nv.lon,
            ht, nm, sp, ch, [(nv.lon, nv.lat), (nu.lon, nu.lat)]⟩) := by
  refine ⟨?_, ?_, ?_⟩
  · intro hrev
    simp only [addPairEdges, hu, hv]
    rw [if_pos hrev]
    rfl
  · intro hrev how
    simp only [addPairEdges, hu, hv]
    rw [if_neg (by simp [hrev]), if_pos how]
  · intro hrev how
    simp only [addPairEdges, hu, hv]
    rw [if_neg (by simp [hrev]), if_neg (by simp [how])]
    rfl

/-- The pair fold of one way reaches every member pair: there is an
intermediate graph, with the same node table, whose step output survives to
the fold result. -/
theorem pairsFold_reach (way_id : Int) (ht nm : String) (sp ch : ℝ)
    (rev ow : Bool) (u v : Int) :
    ∀ (pairs : List (Int × Int)) (g : LightGraph), (u, v) ∈ pairs →
      ∃ g2 : LightGraph, g2.nodes = g.nodes ∧
        ∀ (a b : Int) (e : GraphEdge),
          (addPairEdges way_id ht nm sp ch rev ow g2 u v).edgeIn a b e →
          (pairs.foldl
            (fun g p => addPairEdges way_id ht nm sp ch rev ow g p.1 p.2)
            g).edgeIn a b e := by
  intro pairs
  induction pairs with
  | nil => intro g hp; exact absurd hp (List.not_mem_nil (u, v))
  | cons p rest ih =>
      intro g hp
      rw [List.foldl_cons]
      by_cases hpp : (u, v) = p
      · subst hpp
        refine ⟨g, rfl, ?_⟩
        intro a b e hab
        refine foldl_inv_mem _ (fun g2 : LightGraph => g2.edgeIn a b e) _ ?_ _ hab
        intro g2 hg2 p2 _
        exact addPairEdges_mono _ _ _ _ _ _ _ g2 p2.1 p2.2 hg2
      · have hpr : (u, v) ∈ rest := by
          rcases List.mem_cons.mp hp with h | h
          · exact absurd h hpp
          · exact h
        obtain ⟨g2, hn, hsurv⟩ :=
          ih (addPairEdges way_id ht nm sp ch rev ow g p.1 p.2) hpr
        exact ⟨g2, hn.trans (addPairEdges_nodes way_id ht nm sp ch rev ow g p.1 p.2),
          hsurv⟩

/-- The way fold reaches every member way: there is an intermediate graph,
with the same node table, whose `addWayEdges` output survives to the fold
result. -/
theorem waysFold_reach (way : OSMWay) :
    ∀ (ways : List OSMWay) (g : LightGraph), way ∈ ways →
      ∃ g2 : LightGraph, g2.nodes = g.nodes ∧
        ∀ (a b : Int) (e : GraphEdge), (addWayEdges g2 way).edgeIn a b e →
          (ways.foldl addWayEdges g).edgeIn a b e := by
  intro ways
  induction ways with
  | nil => intro g hw; exact absurd hw (List.not_mem_nil way)
  | cons w rest ih =>
      intro g hw
      rw [List.foldl_cons]
      by_cases hww : way = w
      · subst hww
        refine ⟨g, rfl, ?_⟩
        intro a b e hab
        refine foldl_inv_mem _ (fun g2 : LightGraph => g2.edgeIn a b e) _ ?_ _ hab
        intro g2 hg2 w2 _
        exact addWayEdges_mono g2 w2 hg2
      · have hwr : way ∈ rest := by
          rcases List.mem_cons.mp hw with h | h
          · exact absurd h hww
          · exact h
        obtain ⟨g2, hn, hsurv⟩ := ih (addWayEdges g w) hwr
        exact ⟨g2, hn.trans (addWayEdges_nodes g w), hsurv⟩

/-- Reach through the whole of `build_raw_graph` for one retained way: the
node table of the intermediate graph is the final node table, since the edge
phase never modifies nodes. -/
theorem build_reach (osm : OSMData) (valid_ways : List OSMWay) (way : OSMWay)
    (hway : way ∈ valid_ways) :
    ∃ g2 : LightGraph, g2.nodes = (build_raw_graph osm valid_ways).nodes ∧
      ∀ (a b : Int) (e : GraphEdge), (addWayEdges g2 way).edgeIn a b e →
        (build_raw_graph osm valid_ways).edgeIn a b e := by
  obtain ⟨g2, hn, hs⟩ := waysFold_reach way valid_ways
    ((collectUsedNodeIds valid_ways).foldl
      (fun g node_id =>
        match dget? osm.nodes node_id with
        | some osm_node => g.add_node ⟨osm_node.id, osm_node.lat, osm_node.lon⟩
        | none => g) LightGraph.empty) hway
  refine ⟨g2, ?_, ?_⟩
  · exact hn.trans (waysFold_nodes valid_ways _).symm
  · intro a b e h
    exact hs a b e h

/-- Claim C6: for every retained way of the build and every adjacent node
pair `(u, v)` along it whose both nodes exist, `build_raw_graph` contains
both the `(u, v)` edge and the `(v, u)` edge with mutually reversed two-point
polylines when the way carries no effective one-way tag; the `(u, v)` edge
when the tag is one of `yes`/`1`/`true`; and the `(v, u)` edge with the
reversed polyline when the tag is `-1`.  The final conjunct characterizes the
pair's loop-body step exactly on an arbitrary graph, so in each one-way case
the step adds only the stated edges. -/
theorem c6_build_raw_graph_oneway (osm : OSMData) (valid_ways : List OSMWay)
    (way : OSMWay) (hway : way ∈ valid_ways)
    (u v : Int) (hpair : (u, v) ∈ adjacentPairs way.nodes)
    (nu nv : GraphNode)
    (hu : (build_raw_graph osm valid_ways).get_node u = some nu)
    (hv : (build_raw_graph osm valid_ways).get_node v = some nv)
    (ht nm : String) (sp ch L : ℝ)
    (hht : dgetD way.tags "highway" "unclassified" = ht)
    (hnm : dgetD way.tags "name" "" = nm)
    (hsp : dgetD SPEED_LIMITS ht 30 = sp)
    (hch : dgetD C_HIGHWAY ht 1.0 = ch)
    (hL : haversine_distance nu.lat nu.lon nv.lat nv.lon = L) :
    ((dgetD way.tags "oneway" "no" ∉ ["yes", "1", "true", "-1"]) →
      (build_raw_graph osm valid_ways).edgeIn u v
        ⟨u, v, way.id, L, ht, nm, sp, ch, [(nu.lon, nu.lat), (nv.lon, nv.lat)]⟩ ∧
      (build_raw_graph osm valid_ways).edgeIn v u
        ⟨v, u, way.id, L, ht, nm, sp, ch, [(nv.lon, nv.lat), (nu.lon, nu.lat)]⟩) ∧
    ((dgetD way.tags "oneway" "no" ∈ (["yes", "1", "true"] : List String)) →
      (build_raw_graph osm valid_ways).edgeIn u v
        ⟨u, v, way.id, L, ht, nm, sp, ch, [(nu.lon, nu.lat), (nv.lon, nv.lat)]⟩) ∧
    ((dget? way.tags "oneway" = some "-1") →
      (build_raw_graph osm valid_ways).edgeIn v u
        ⟨v, u, way.id, L, ht, nm, sp, ch, [(nv.lon, nv.lat), (nu.lon, nu.lat)]⟩) ∧
    (∀ g2 : LightGraph, g2.get_node u = some nu → g2.get_node v = some nv →
      (is_reverse_oneway way.tags = false → is_oneway way.tags = false →
        addPairEdges way.id ht nm sp ch (is_reverse_oneway way.tags)
            (is_oneway way.tags) g2 u v =
          (g2.add_edge ⟨u, v, way.id, L, ht, nm, sp, ch,
            [(nu.lon, nu.lat), (nv.lon, nv.lat)]⟩).add_edge
            ⟨v, u, way.id, L, ht, nm, sp, ch,
              [(nv.lon, nv.lat), (nu.lon, nu.lat)]⟩) ∧
      (is_reverse_oneway way.tags = false → is_oneway way.tags = true →
        addPairEdges way.id ht nm sp ch (is_reverse_oneway way.tags)
            (is_oneway way.tags) g2 u v =
          g2.add_edge ⟨u, v, way.id, L, ht, nm, sp, ch,
            [(nu.lon, nu.lat), (nv.lon, nv.lat)]⟩) ∧
      (is_reverse_oneway way.tags = true →
        addPairEdges way.id ht nm sp ch (is_reverse_oneway way.tags)
            (is_oneway way.tags) g2 u v =
          g2.add_edge ⟨v, u, way.id, L, ht, nm, sp, ch,
            [(nv.lon, nv.lat), (nu.lon, nu.lat)]⟩)) := by
  subst hht hnm hsp hch hL
  obtain ⟨gW, hgWn, hsurvW0⟩ := build_reach osm valid_ways way hway
  have huW : gW.get_node u = some nu := by
    simp only [LightGraph.get_node] at hu ⊢
    rw [hgWn]
    exact hu
  have hvW : gW.get_node v = some nv := by
    simp only [LightGraph.get_node] at hv ⊢
    rw [hgWn]
    exact hv
  obtain ⟨gP, hgPn, hsurvP⟩ := pairsFold_reach way.id
    (dgetD way.tags "highway" "unclassified") (dgetD way.tags "name" "")
    (dgetD SPEED_LIMITS (dgetD way.tags "highway" "unclassified") 30)
    (dgetD C_HIGHWAY (dgetD way.tags "highway" "unclassified") 1.0)
    (is_reverse_oneway way.tags) (is_oneway way.tags) u v
    (adjacentPairs way.nodes) gW hpair
  have hsurv : ∀ (a b : Int) (e : GraphEdge),
      (addPairEdges way.id (dgetD way.tags "highway" "unclassified")
        (dgetD way.tags "name" "")
        (dgetD SPEED_LIMITS (dgetD way.tags "highway" "unclassified") 30)
        (dgetD C_HIGHWAY (dgetD way.tags "highway" "unclassified") 1.0)
        (is_reverse_oneway way.tags) (is_oneway way.tags) gP u v).edgeIn a b e →
      (build_raw_graph osm valid_ways).edgeIn a b e := by
    intro a b e h
    exact hsurvW0 a b e (hsurvP a b e h)
  have huP : gP.get_node u = some nu := by
    simp only [LightGraph.get_node] at huW ⊢
    rw [hgPn]
    exact huW
  have hvP : gP.get_node v = some nv := by
    simp only [LightGraph.get_node] at hvW ⊢
    rw [hgPn]
    exact hvW
  have heq := addPairEdges_eq way.id
    (dgetD way.tags "highway" "unclassified") (dgetD way.tags "name" "")
    (dgetD SPEED_LIMITS (dgetD way.tags "highway" "unclassified") 30)
    (dgetD C_HIGHWAY (dgetD way.tags "highway" "unclassified") 1.0)
    (is_reverse_oneway way.tags) (is_oneway way.tags) gP u v nu nv huP hvP
  refine ⟨?_, ?_, ?_, ?_⟩
  · intro h1
    have hrev : is_reverse_oneway way.tags = false := by
      unfold is_reverse_oneway
      cases hdg : dget? way.tags "oneway" with
      | none => rfl
      | some s =>
          by_cases hs : s = "-1"
          · exfalso
            apply h1
            have : dgetD way.tags "oneway" "no" = s := by simp [dgetD, hdg]
            rw [this, hs]
            simp
          · simp [hs]
    have honeway : is_oneway way.tags = false := by
      unfold is_oneway
      simpa using h1
    have heqq := heq.2.2 hrev honeway
    constructor
    · apply hsurv
      rw [heqq]
      exact edgeIn_add_edge_mono _ (edgeIn_add_edge_self gP _)
    · apply hsurv
      rw [heqq]
      exact edgeIn_add_edge_self _ _
  · intro h2
    have hne : dgetD way.tags "oneway" "no" ≠ "-1" := by
      intro hc
      rw [hc] at h2
      simp at h2
    have hrev : is_reverse_oneway way.tags = false := by
      unfold is_reverse_oneway
      cases hdg : dget? way.tags "oneway" with
      | none => rfl
      | some s =>
          have hs : s ≠ "-1" := by
            intro hc
            apply hne
            simp [dgetD, hdg, hc]
          simp [hs]
    have honeway : is_oneway way.tags = true := by
      unfold is_oneway
      have h2m : dgetD way.tags "oneway" "no" ∈ ["yes", "1", "true", "-1"] := by
        simp at h2 ⊢
        tauto
      simpa using h2m
    have heqq := heq.2.1 hrev honeway
    apply hsurv
    rw [heqq]
    exact edgeIn_add_edge_self _ _
  · intro h3
    have hrev : is_reverse_oneway way.tags = true := by
      simp [is_reverse_oneway, h3]
    have heqq := heq.1 hrev
    apply hsurv
    rw [heqq]
    exact edgeIn_add_edge_self _ _
  · intro g2 hgu hgv
    have heqx := addPairEdges_eq way.id
      (dgetD way.tags "highway" "unclassified") (dgetD way.tags "name" "")
      (dgetD SPEED_LIMITS (dgetD way.tags "highway" "unclassified") 30)
      (dgetD C_HIGHWAY (dgetD way.tags "highway" "unclassified") 1.0)
      (is_reverse_oneway way.tags) (is_oneway way.tags) g2 u v nu nv hgu hgv
    exact ⟨heqx.2.2, heqx.2.1, heqx.1⟩

/-- Concrete three-node reverse-oneway way used as the C6 witness input;
its node list has two adjacent pairs. -/
def wayW : OSMWay :=
  ⟨5, [1, 2, 3], [("highway", "residential"), ("oneway", "-1")]⟩

/-- Concrete OSM extract holding the three nodes of `wayW`. -/
noncomputable def osmW : OSMData :=
  ⟨[(1, ⟨1, 10, 20⟩), (2, ⟨2, 11, 21⟩), (3, ⟨3, 12, 22⟩)], [wayW]⟩

/-- Witness for C6 at the second adjacent pair `(2, 3)` of the three-node
reverse-oneway way `wayW`: the built graph contains the edge `(3, 2)` with
the reversed polyline. -/
theorem c6_build_raw_graph_oneway_witness :
    (build_raw_graph osmW [wayW]).edgeIn 3 2
      ⟨3, 2, 5, haversine_distance 11 21 12 22, "residential", "", 30, 1.2,
        [(22, 12), (21, 11)]⟩ :=
  (c6_build_raw_graph_oneway osmW [wayW] wayW (List.mem_singleton.mpr rfl)
    2 3 (by decide) ⟨2, 11, 21⟩ ⟨3, 12, 22⟩ rfl rfl
    "residential" "" 30 1.2 (haversine_distance 11 21 12 22)
    rfl rfl rfl rfl rfl).2.2.1 rfl

end VTR
